import Mathlib

/-!
Verification of the page-grouping engine of `doc-router-temporal`
(`src/activities/group_classification_results.py`,
`group_classification_results_activity`).

The engine is a pure function of the per-page classification payloads: it
partitions page numbers into surgery-schedule pages and per-patient groups in
four passes (primary classification, deferred matching, fuzzy name merge,
insurance-card adjacency merge).  This file gives a shallow embedding of that
function and proves/refutes the claims about it.

Modelling conventions:
* Payload values are JSON-like trees (`Value`): strings, arrays, objects.
  Python `None` payload values and non-string scalars are outside the model;
  the modelled inputs are the string/object/array shapes the engine consumes.
* Python dicts that the engine builds (`patients`, `patient_metadata`) are
  insertion-ordered association lists with unique keys; the Python `set` of
  MRNs is a list used only through membership and insertion.
* A page record is `{page_num, <prompt_name>: payload}`; the model stores the
  payload already selected by the prompt name (a missing prompt key is the
  empty object `{}`, exactly what `page_data.get(prompt_name, {})` yields).
* The `dateutil.parser.parse` fallback is a third-party library not in the
  repository; it is a parameter (`fallback`) returning the parsed
  year/month/day or `none` when it raises.
* String primitives are re-implemented over `List Char` (ASCII-faithful to
  the Python operations used: `lower`, `strip`, `split`, `join`, `in`).
-/

/-- JSON-like classification payload: the nesting of mappings, sequences and
strings that `find_field` walks. -/
inductive Value where
  | str : String → Value
  | vlist : List Value → Value
  | vmap : List (String × Value) → Value

/-- Python `s.lower()` (ASCII). -/
def pyLower (s : String) : String := ⟨s.toList.map Char.toLower⟩

/-- Python `s.strip()`. -/
def pyStrip (s : String) : String :=
  ⟨((s.toList.dropWhile Char.isWhitespace).reverse.dropWhile Char.isWhitespace).reverse⟩

def startsWithChars : List Char → List Char → Bool
  | [], _ => true
  | _ :: _, [] => false
  | c :: cs, d :: ds => c == d && startsWithChars cs ds

def hasSubChars (needle : List Char) : List Char → Bool
  | [] => needle.isEmpty
  | d :: ds => startsWithChars needle (d :: ds) || hasSubChars needle ds

/-- Python `needle in hay` on strings (substring containment). -/
def strContains (hay needle : String) : Bool :=
  hasSubChars needle.toList hay.toList

/-- Python `s.split(sep)` for a one-character separator. -/
def splitCharAux (sep : Char) : List Char → List Char → List String
  | [], acc => [⟨acc.reverse⟩]
  | d :: ds, acc =>
    if d == sep then (⟨acc.reverse⟩ : String) :: splitCharAux sep ds []
    else splitCharAux sep ds (d :: acc)

def pySplit (s : String) (sep : Char) : List String := splitCharAux sep s.toList []

/-- Python `sep.join(parts)`. -/
def pyJoin (sep : String) : List String → String
  | [] => ""
  | h :: t => t.foldl (fun acc s => acc ++ sep ++ s) h

/-- The single-quote character, used by the Python `repr` of strings. -/
def squote : String := ⟨[Char.ofNat 39]⟩

/-- Truthiness of a payload value (Python `bool(x)` for str/list/dict). -/
def Value.isTruthy : Value → Bool
  | .str s => !(s == "")
  | .vlist l => !l.isEmpty
  | .vmap l => !l.isEmpty

mutual

/-- Python `repr` of a payload value (strings single-quoted; the engine only
uses it through substring keyword checks). -/
def pyRepr : Value → String
  | .str s => squote ++ s ++ squote
  | .vlist l => "[" ++ pyReprItems l ++ "]"
  | .vmap l => "\x7b" ++ pyReprEntries l ++ "\x7d"
termination_by structural v => v

def pyReprItems : List Value → String
  | [] => ""
  | [v] => pyRepr v
  | v :: rest => pyRepr v ++ ", " ++ pyReprItems rest
termination_by structural l => l

def pyReprEntries : List (String × Value) → String
  | [] => ""
  | [(k, v)] => squote ++ k ++ squote ++ ": " ++ pyRepr v
  | (k, v) :: rest => squote ++ k ++ squote ++ ": " ++ pyRepr v ++ ", " ++ pyReprEntries rest
termination_by structural l => l

end

/-- Python `str(x)`: a top-level string prints bare, containers print as their
`repr`. -/
def pyStr : Value → String
  | .str s => s
  | v => pyRepr v

mutual

/-- `find_field` from the source: depth-first search for a key containing one
of the candidate substrings; at a mapping each key is checked and, when it
does not match, the search immediately descends into that key's value before
moving to the next key. -/
def find_field : Value → List String → Option Value
  | .vmap entries, fieldNames => ffEntries entries fieldNames
  | .vlist items, fieldNames => ffItems items fieldNames
  | _, _ => none
termination_by structural v => v

def ffEntries : List (String × Value) → List String → Option Value
  | [], _ => none
  | (k, v) :: rest, fieldNames =>
    if fieldNames.any (fun fn => strContains (pyLower k) fn) then some v
    else
      match find_field v fieldNames with
      | some r => some r
      | none => ffEntries rest fieldNames
termination_by structural l => l

def ffItems : List Value → List String → Option Value
  | [], _ => none
  | item :: rest, fieldNames =>
    match find_field item fieldNames with
    | some r => some r
    | none => ffItems rest fieldNames
termination_by structural l => l

end

/-- `field_mappings["first_name"]` from the source. -/
def firstNameFields : List String :=
  ["firstname", "first_name", "first name", "fname", "patient first name"]

/-- `field_mappings["last_name"]` from the source. -/
def lastNameFields : List String :=
  ["lastname", "last_name", "last name", "lname", "patient last name", "surname"]

/-- `field_mappings["dob"]` from the source. -/
def dobFields : List String :=
  ["date of birth", "dob", "birthdate", "birth date", "date_of_birth", "birth_date"]

/-- `field_mappings["mrn"]` from the source. -/
def mrnFields : List String :=
  ["medical record number", "mrn", "medical_record_number",
   "patient medical record number", "record number", "record_number"]

/-! ### Date normalization (`normalize_dob`)

The source tries a fixed ordered list of `datetime.strptime` formats, then
falls back to `dateutil.parser.parse`.  `strptime` is modelled directive by
directive with CPython's `_strptime` regexes: `%Y` is exactly four digits,
`%m` is `1[0-2]|0[1-9]|[1-9]`, `%d` is `3[01]|[12]\d|0[1-9]|[1-9]` (each
alternation tried two-digit first, then one-digit, with backtracking into the
rest of the pattern), `%B`/`%b` match month names case-insensitively, and the
parsed triple must be a valid calendar date (else `ValueError`, i.e. the next
format is tried). -/

/-- A `strptime` format directive. -/
inductive Dir where
  | lit : Char → Dir
  | dY : Dir
  | dm : Dir
  | dd : Dir
  | dB : Dir
  | db : Dir

/-- Parsed-so-far state (strptime defaults: 1900-01-01). -/
structure PD where
  y : Nat
  m : Nat
  d : Nat

def digitVal (c : Char) : Nat := c.toNat - 48

/-- Two-digit month alternatives `1[0-2]|0[1-9]`. -/
def dm2 : List Char → Option (Nat × List Char)
  | c1 :: c2 :: rest =>
    if c1 == '1' && ('0' ≤ c2 && c2 ≤ '2') then some (10 + digitVal c2, rest)
    else if c1 == '0' && ('1' ≤ c2 && c2 ≤ '9') then some (digitVal c2, rest)
    else none
  | _ => none

/-- One-digit month alternative `[1-9]`. -/
def dm1 : List Char → Option (Nat × List Char)
  | c1 :: rest => if '1' ≤ c1 && c1 ≤ '9' then some (digitVal c1, rest) else none
  | [] => none

/-- Two-digit day alternatives `3[01]|[12]\d|0[1-9]`. -/
def dd2 : List Char → Option (Nat × List Char)
  | c1 :: c2 :: rest =>
    if c1 == '3' && ('0' ≤ c2 && c2 ≤ '1') then some (30 + digitVal c2, rest)
    else if ('1' ≤ c1 && c1 ≤ '2') && c2.isDigit then some (10 * digitVal c1 + digitVal c2, rest)
    else if c1 == '0' && ('1' ≤ c2 && c2 ≤ '9') then some (digitVal c2, rest)
    else none
  | _ => none

/-- One-digit day alternative `[1-9]`. -/
def dd1 : List Char → Option (Nat × List Char)
  | c1 :: rest => if '1' ≤ c1 && c1 ≤ '9' then some (digitVal c1, rest) else none
  | [] => none

/-- Exactly four digits (`%Y`). -/
def dY4 : List Char → Option (Nat × List Char)
  | c1 :: c2 :: c3 :: c4 :: rest =>
    if c1.isDigit && c2.isDigit && c3.isDigit && c4.isDigit then
      some (1000 * digitVal c1 + 100 * digitVal c2 + 10 * digitVal c3 + digitVal c4, rest)
    else none
  | _ => none

def monthNamesFull : List (String × Nat) :=
  [("january", 1), ("february", 2), ("march", 3), ("april", 4), ("may", 5), ("june", 6),
   ("july", 7), ("august", 8), ("september", 9), ("october", 10), ("november", 11),
   ("december", 12)]

def monthNamesAbbr : List (String × Nat) :=
  [("jan", 1), ("feb", 2), ("mar", 3), ("apr", 4), ("may", 5), ("jun", 6), ("jul", 7),
   ("aug", 8), ("sep", 9), ("oct", 10), ("nov", 11), ("dec", 12)]

/-- Match a month name (case-insensitive) as a prefix of the input; month
names are pairwise prefix-free so at most one matches. -/
def matchMonth : List (String × Nat) → List Char → Option (Nat × List Char)
  | [], _ => none
  | (name, value) :: rest, cs =>
    if startsWithChars name.toList (cs.map Char.toLower) then
      some (value, cs.drop name.toList.length)
    else matchMonth rest cs

/-- Run a format over the input with the regex's local backtracking: a failed
two-digit numeric alternative falls back to the one-digit one. -/
def runDirs : List Dir → List Char → PD → Option PD
  | [], [], pd => some pd
  | [], _ :: _, _ => none
  | .lit c :: rest, cs, pd =>
    match cs with
    | c1 :: cs1 => if c1 == c then runDirs rest cs1 pd else none
    | [] => none
  | .dY :: rest, cs, pd =>
    match dY4 cs with
    | some (v, cs1) => runDirs rest cs1 { pd with y := v }
    | none => none
  | .dm :: rest, cs, pd =>
    (match dm2 cs with
     | some (v, cs1) =>
       match runDirs rest cs1 { pd with m := v } with
       | some r => some r
       | none =>
         match dm1 cs with
         | some (v1, cs2) => runDirs rest cs2 { pd with m := v1 }
         | none => none
     | none =>
       match dm1 cs with
       | some (v1, cs2) => runDirs rest cs2 { pd with m := v1 }
       | none => none)
  | .dd :: rest, cs, pd =>
    (match dd2 cs with
     | some (v, cs1) =>
       match runDirs rest cs1 { pd with d := v } with
       | some r => some r
       | none =>
         match dd1 cs with
         | some (v1, cs2) => runDirs rest cs2 { pd with d := v1 }
         | none => none
     | none =>
       match dd1 cs with
       | some (v1, cs2) => runDirs rest cs2 { pd with d := v1 }
       | none => none)
  | .dB :: rest, cs, pd =>
    match matchMonth monthNamesFull cs with
    | some (v, cs1) => runDirs rest cs1 { pd with m := v }
    | none => none
  | .db :: rest, cs, pd =>
    match matchMonth monthNamesAbbr cs with
    | some (v, cs1) => runDirs rest cs1 { pd with m := v }
    | none => none

def isLeapYear (y : Nat) : Bool := (y % 4 == 0 && y % 100 != 0) || y % 400 == 0

def daysInMonth (y m : Nat) : Nat :=
  if m == 2 then (if isLeapYear y then 29 else 28)
  else if m == 4 || m == 6 || m == 9 || m == 11 then 30
  else 31

/-- `datetime` constructor validity (month range is already regex-enforced). -/
def validDate (y m d : Nat) : Bool :=
  1 ≤ y && y ≤ 9999 && 1 ≤ m && m ≤ 12 && 1 ≤ d && d ≤ daysInMonth y m

/-- One `datetime.strptime(s, fmt)` attempt. -/
def strptimeFmt (dirs : List Dir) (s : String) : Option PD :=
  match runDirs dirs s.toList ⟨1900, 1, 1⟩ with
  | some pd => if validDate pd.y pd.m pd.d then some pd else none
  | none => none

/-- The source's ordered `date_formats` list. -/
def date_formats : List (List Dir) :=
  [ [.dY, .lit '-', .dm, .lit '-', .dd],                -- %Y-%m-%d
    [.dm, .lit '/', .dd, .lit '/', .dY],                -- %m/%d/%Y
    [.dd, .lit '/', .dm, .lit '/', .dY],                -- %d/%m/%Y
    [.dY, .lit '/', .dm, .lit '/', .dd],                -- %Y/%m/%d
    [.dm, .lit '-', .dd, .lit '-', .dY],                -- %m-%d-%Y
    [.dd, .lit '-', .dm, .lit '-', .dY],                -- %d-%m-%Y
    [.dB, .lit ' ', .dd, .lit ',', .lit ' ', .dY],      -- %B %d, %Y
    [.db, .lit ' ', .dd, .lit ',', .lit ' ', .dY],      -- %b %d, %Y
    [.dd, .lit ' ', .dB, .lit ' ', .dY],                -- %d %B %Y
    [.dd, .lit ' ', .db, .lit ' ', .dY],                -- %d %b %Y
    [.dY, .dm, .dd] ]                                   -- %Y%m%d

/-- First format in the list that parses without error. -/
def tryFormats (s : String) : Option PD
  := date_formats.foldl (fun acc dirs => match acc with
      | some r => some r
      | none => strptimeFmt dirs s) none

def digitChar (n : Nat) : Char := Char.ofNat (48 + n)

def pad2 (n : Nat) : String := ⟨[digitChar ((n / 10) % 10), digitChar (n % 10)]⟩

def pad4 (n : Nat) : String :=
  ⟨[digitChar ((n / 1000) % 10), digitChar ((n / 100) % 10),
    digitChar ((n / 10) % 10), digitChar (n % 10)]⟩

/-- `parsed_date.strftime("%Y_%m_%d")`. -/
def formatDob (pd : PD) : String := pad4 pd.y ++ "_" ++ pad2 pd.m ++ "_" ++ pad2 pd.d

/-- The external `dateutil.parser.parse` fallback: `none` models a raised
`ValueError`/`TypeError`. -/
def Fallback : Type := String → Option PD

/-- The source's DOB-normalization block: the strict format list, then the
permissive fallback; `none` when everything fails (no exception escapes). -/
def normalize_dob (fallback : Fallback) (dobStr : String) : Option String :=
  match tryFormats dobStr with
  | some pd => some (formatDob pd)
  | none =>
    match fallback dobStr with
    | some pd => some (formatDob pd)
    | none => none

/-! ### Engine state

`patients` and `patient_metadata` are insertion-ordered dicts, modelled as
association lists (`alGet`/`alUpdate` touch the first — under the maintained
key-uniqueness, the only — matching entry; `alErase` is `del`).  `dropped1`
and `dropped2` are ghost lists recording pages the first pass silently skips
and pages hitting the second pass's no-identity branch; they are written but
never read by the engine. -/

def alGet : List (String × α) → String → Option α
  | [], _ => none
  | (k, v) :: rest, key => if k == key then some v else alGet rest key

def alUpdate (f : α → α) : List (String × α) → String → List (String × α)
  | [], _ => []
  | (k, v) :: rest, key =>
    if k == key then (k, f v) :: rest else (k, v) :: alUpdate f rest key

def alErase : List (String × α) → String → List (String × α)
  | [], _ => []
  | (k, v) :: rest, key => if k == key then rest else (k, v) :: alErase rest key

/-- Python `set.add` (observed only through membership). -/
def setAdd (l : List String) (s : String) : List String :=
  if l.contains s then l else l ++ [s]

def optStrTruthy : Option String → Bool
  | some s => !(s == "")
  | none => false

def optValTruthy : Option Value → Bool
  | some v => v.isTruthy
  | none => false

/-- One page record, with the classification payload already selected by the
prompt name. -/
structure PageData where
  page_num : Nat
  payload : Value

/-- `patient_metadata[key]`. -/
structure MetaData where
  mrn : List String
  dob : Option String

structure P12State where
  surgery : List Nat
  patients : List (String × List Nat)
  meta : List (String × MetaData)
  deferred : List (Nat × String × String × String × Option String)
  dropped1 : List Nat
  dropped2 : List Nat

def initState : P12State := ⟨[], [], [], [], [], []⟩

/-! ### First pass (primary classifier) -/

def primaryKeywords : List String :=
  ["surgery schedule", "schedule", "surgical schedule", "operating room", "or schedule"]

def secondaryKeywords : List String := ["schedule", "surgery", "operating"]

/-- `str(x).strip().lower() if x else ""` (names). -/
def normField (o : Option Value) : String :=
  match o with
  | some v => if v.isTruthy then pyLower (pyStrip (pyStr v)) else ""
  | none => ""

/-- `str(x).strip() if x else ""` (MRN keeps case). -/
def normMrnField (o : Option Value) : String :=
  match o with
  | some v => if v.isTruthy then pyStrip (pyStr v) else ""
  | none => ""

/-- `dob_normalized`: only a truthy extracted DOB value is parsed. -/
def dobNormalized (fallback : Fallback) (dobOpt : Option Value) : Option String :=
  match dobOpt with
  | some v => if v.isTruthy then normalize_dob fallback (pyStrip (pyStr v)) else none
  | none => none

/-- `patient_key_parts` (truthy components only). -/
def patientKeyParts (firstN lastN : String) (dobN : Option String) : List String :=
  (if firstN == "" then [] else [firstN]) ++
  (if lastN == "" then [] else [lastN]) ++
  (match dobN with | some s => if s == "" then [] else [s] | none => [])

/-- The body of the first-pass `for page_data in pages` loop. -/
def pass1Step (fallback : Fallback) (st : P12State) (pd : PageData) : P12State :=
  let cd := pd.payload
  if !cd.isTruthy then { st with dropped1 := st.dropped1 ++ [pd.page_num] }
  else
    let cstr := pyLower (pyStr cd)
    if primaryKeywords.any (fun kw => strContains cstr kw) then
      { st with surgery := st.surgery ++ [pd.page_num] }
    else
      let first := find_field cd firstNameFields
      let last := find_field cd lastNameFields
      let dob := find_field cd dobFields
      let mrn := find_field cd mrnFields
      if optValTruthy first || optValTruthy last || optValTruthy dob || optValTruthy mrn then
        let firstN := normField first
        let lastN := normField last
        let mrnN := normMrnField mrn
        let dobN := dobNormalized fallback dob
        let parts := patientKeyParts firstN lastN dobN
        if !parts.isEmpty then
          if optStrTruthy dobN && (!(firstN == "") || !(lastN == "")) then
            let key := pyJoin "_" parts
            let isNew := (alGet st.patients key).isNone
            let pats0 := if isNew then st.patients ++ [(key, ([] : List Nat))] else st.patients
            let meta0 := if isNew then st.meta ++ [(key, ⟨[], dobN⟩)] else st.meta
            let pats1 := alUpdate (fun pgs => pgs ++ [pd.page_num]) pats0 key
            let meta1 :=
              if mrnN == "" then meta0
              else alUpdate (fun md => { md with mrn := setAdd md.mrn mrnN }) meta0 key
            { st with patients := pats1, meta := meta1 }
          else
            { st with deferred := st.deferred ++ [(pd.page_num, firstN, lastN, mrnN, dobN)] }
        else if !(mrnN == "") || optStrTruthy dobN then
          { st with deferred := st.deferred ++ [(pd.page_num, firstN, lastN, mrnN, dobN)] }
        else
          { st with dropped1 := st.dropped1 ++ [pd.page_num] }
      else
        if secondaryKeywords.any (fun kw => strContains cstr kw) then
          { st with surgery := st.surgery ++ [pd.page_num] }
        else
          { st with dropped1 := st.dropped1 ++ [pd.page_num] }

def pass1 (fallback : Fallback) (pages : List PageData) : P12State :=
  pages.foldl (pass1Step fallback) initState

/-! ### Second pass (deferred-page matcher) -/

/-- The name-match scan over existing groups (only keys with three or more
underscore-separated parts participate). -/
def nameScan : List (String × List Nat) → String → String → Option String
  | [], _, _ => none
  | (key, _) :: rest, first, last =>
    let key_parts := pySplit key '_'
    if key_parts.length ≥ 3 then
      let key_first := (key_parts.get? 0).getD ""
      let key_last := (key_parts.get? 1).getD ""
      if !(first == "") && !(key_first == "") && first == key_first then
        if !(last == "") && !(key_last == "") && last == key_last then some key
        else if last == "" && key_last == "" then some key
        else nameScan rest first last
      else if first == "" && key_first == "" && !(last == "") && !(key_last == "") &&
          last == key_last then some key
      else nameScan rest first last
    else nameScan rest first last

def mrnScan (meta : List (String × MetaData)) (mrn : String) :
    List (String × List Nat) → Option String
  | [] => none
  | (key, _) :: rest =>
    let md := (alGet meta key).getD ⟨[], none⟩
    if md.mrn.contains mrn then some key else mrnScan meta mrn rest

def dobScan (meta : List (String × MetaData)) (dob : Option String) :
    List (String × List Nat) → Option String
  | [] => none
  | (key, _) :: rest =>
    let md := (alGet meta key).getD ⟨[], none⟩
    if optStrTruthy md.dob && md.dob == dob then some key else dobScan meta dob rest

/-- Name-match bookkeeping: append the page, add the MRN, fill a missing DOB. -/
def applyNameMatch (st : P12State) (key : String) (n : Nat) (mrn : String)
    (dob : Option String) : P12State :=
  { st with
    patients := alUpdate (fun pgs => pgs ++ [n]) st.patients key,
    meta := alUpdate (fun md =>
      let md1 := if mrn == "" then md else { md with mrn := setAdd md.mrn mrn }
      if optStrTruthy dob && !(optStrTruthy md1.dob) then { md1 with dob := dob } else md1)
      st.meta key }

/-- MRN-match bookkeeping: append the page, fill a missing DOB (no MRN add). -/
def applyMrnMatch (st : P12State) (key : String) (n : Nat) (dob : Option String) : P12State :=
  { st with
    patients := alUpdate (fun pgs => pgs ++ [n]) st.patients key,
    meta := alUpdate (fun md =>
      if optStrTruthy dob && !(optStrTruthy md.dob) then { md with dob := dob } else md)
      st.meta key }

/-- DOB-match bookkeeping: append the page, add the MRN. -/
def applyDobMatch (st : P12State) (key : String) (n : Nat) (mrn : String) : P12State :=
  { st with
    patients := alUpdate (fun pgs => pgs ++ [n]) st.patients key,
    meta :=
      if mrn == "" then st.meta
      else alUpdate (fun md => { md with mrn := setAdd md.mrn mrn }) st.meta key }

/-- The new-group branch: synthesize a key from name, MRN or DOB; with none of
them the page is skipped (ghost-recorded in `dropped2`). -/
def pass2NewGroup (st : P12State) (n : Nat) (first last mrn : String)
    (dob : Option String) : P12State :=
  let parts := (if first == "" then [] else [first]) ++ (if last == "" then [] else [last])
  let keyOpt : Option String :=
    if !parts.isEmpty then some (pyJoin "_" parts)
    else if !(mrn == "") then some ("mrn_" ++ mrn)
    else if optStrTruthy dob then some ("dob_" ++ dob.getD "")
    else none
  match keyOpt with
  | none => { st with dropped2 := st.dropped2 ++ [n] }
  | some key =>
    let isNew := (alGet st.patients key).isNone
    let pats0 := if isNew then st.patients ++ [(key, ([] : List Nat))] else st.patients
    let meta0 :=
      if isNew then st.meta ++ [(key, ⟨[], if optStrTruthy dob then dob else none⟩)]
      else st.meta
    let pats1 := alUpdate (fun pgs => pgs ++ [n]) pats0 key
    let meta1 :=
      if mrn == "" then meta0
      else alUpdate (fun md => { md with mrn := setAdd md.mrn mrn }) meta0 key
    { st with patients := pats1, meta := meta1 }

/-- The body of the second-pass loop: name match, then MRN, then DOB, then a
new group, stopping at the first success. -/
def pass2Step (st : P12State) (t : Nat × String × String × String × Option String) : P12State :=
  let (n, first, last, mrn, dob) := t
  match nameScan st.patients first last with
  | some key => applyNameMatch st key n mrn dob
  | none =>
    match (if mrn == "" then none else mrnScan st.meta mrn st.patients) with
    | some key => applyMrnMatch st key n dob
    | none =>
      match (if optStrTruthy dob then dobScan st.meta dob st.patients else none) with
      | some key => applyDobMatch st key n mrn
      | none => pass2NewGroup st n first last mrn dob

def pass2 (st : P12State) : P12State := st.deferred.foldl pass2Step st

/-! ### Third pass (fuzzy name merge) -/

/-- Python `str.isdigit` (nonempty, all digits). -/
def isPyDigit (s : String) : Bool := !s.toList.isEmpty && s.toList.all Char.isDigit

/-- `extract_name_string` from the source: strip a trailing `YYYY_MM_DD`
suffix (three all-digit parts, the first of length four) when the key has at
least four parts. -/
def extract_name_string (patient_key : String) : String :=
  let parts := pySplit patient_key '_'
  if parts.length ≥ 4 then
    let lastThree := parts.drop (parts.length - 3)
    if lastThree.all isPyDigit && ((lastThree.get? 0).getD "").toList.length == 4 then
      pyJoin "_" (parts.take (parts.length - 3))
    else pyJoin "_" parts
  else pyJoin "_" parts

/-- One row of the source's Levenshtein dynamic program. -/
def levRowAux (c1 : Char) : List Char → List Nat → Nat → List Nat
  | c2 :: s2rest, pj :: prest, last =>
    match prest with
    | pj1 :: _ =>
      let ins := pj1 + 1
      let del := last + 1
      let sub := pj + (if c1 == c2 then 0 else 1)
      let cur := min ins (min del sub)
      cur :: levRowAux c1 s2rest prest cur
    | [] => []
  | _, _, _ => []

def levCore (s1 s2 : List Char) : Nat :=
  if s2.length == 0 then s1.length
  else
    let final := s1.enum.foldl
      (fun prev ic => (ic.1 + 1) :: levRowAux ic.2 s2 prev (ic.1 + 1))
      (List.range (s2.length + 1))
    final.getLastD 0

/-- `levenshtein_distance` from the source (the initial swap puts the longer
string first). -/
def levenshtein_distance (s1 s2 : String) : Nat :=
  if s1.toList.length < s2.toList.length then levCore s2.toList s1.toList
  else levCore s1.toList s2.toList

/-- One candidate comparison of the fuzzy pass. -/
def pass3BestStep (selfKey standaloneName : String) (best : Option (String × Nat))
    (kv : String × List Nat) : Option (String × Nat) :=
  if kv.1 == selfKey then best
  else if levenshtein_distance standaloneName (pyLower (extract_name_string kv.1)) ≤ 2 &&
      (match best with
       | none => true
       | some b => levenshtein_distance standaloneName (pyLower (extract_name_string kv.1)) < b.2)
    then some (kv.1, levenshtein_distance standaloneName (pyLower (extract_name_string kv.1)))
  else best

/-- The best-candidate scan of the fuzzy pass: lowest distance ≤ 2 wins, ties
resolved by iteration order. -/
def pass3Best (pats : List (String × List Nat)) (selfKey standaloneName : String) :
    Option (String × Nat) :=
  pats.foldl (pass3BestStep selfKey standaloneName) none

/-- One iteration of the fuzzy pass over a key of the group dict: a singleton
merges into its best candidate; `rem` queues the singleton's deletion.  The
ghost `lost` list records pages merged into a group that is itself already
queued for deletion (such pages vanish from the final output). -/
def pass3Step (acc : List (String × List Nat) × List String × List Nat) (key : String) :
    List (String × List Nat) × List String × List Nat :=
  let (pats, rem, lost) := acc
  match alGet pats key with
  | none => acc
  | some pgs =>
    if !(pgs.length == 1) then acc
    else
      let standaloneName := pyLower (extract_name_string key)
      match pass3Best pats key standaloneName with
      | none => acc
      | some best =>
        (alUpdate (fun l => l ++ pgs) pats best.1, rem ++ [key],
         if rem.contains best.1 then lost ++ pgs else lost)

/-- The fuzzy pass: iterate the keys as they exist at pass start, then delete
the merged singletons.  Returns the surviving groups and the ghost lost
pages. -/
def pass3 (pats : List (String × List Nat)) : List (String × List Nat) × List Nat :=
  let keys := pats.map Prod.fst
  let res := keys.foldl pass3Step (pats, [], [])
  (res.2.1.foldl alErase res.1, res.2.2)

/-! ### Fourth pass (insurance/ID-card adjacency merge) -/

/-- `page_data_map` lookup (a dict comprehension: the last record with a given
page number wins). -/
def lookupPage (pages : List PageData) (n : Nat) : Option PageData :=
  (pages.filter (fun p => p.page_num == n)).getLast?

/-- `get_document_type` from the source.  (A non-string `document_type` value
would raise `AttributeError` in Python; such payloads are outside the model.) -/
def get_document_type (pages : List PageData) (n : Nat) : Option String :=
  match lookupPage pages n with
  | none => none
  | some pd =>
    match pd.payload with
    | .vmap entries => some (pyLower (((alGet entries "document_type").map pyStr).getD ""))
    | _ => none

def isCardDocType (o : Option String) : Bool :=
  match o with
  | some dt => dt == "patient_insurance_card" || dt == "patient_id_card"
  | none => false

def has_insurance_or_id_card (pages : List PageData) (pgs : List Nat) : Bool :=
  pgs.any (fun n => isCardDocType (get_document_type pages n))

def extractLastFallback (parts : List String) : String :=
  if parts.length ≥ 2 then pyLower ((parts.get? 1).getD "") else ""

/-- `extract_last_name` from the source. -/
def extract_last_name (patient_key : String) : String :=
  let parts := pySplit patient_key '_'
  if parts.length ≥ 4 then
    let lastThree := parts.drop (parts.length - 3)
    if lastThree.all isPyDigit && ((lastThree.get? 0).getD "").toList.length == 4 then
      if parts.length ≥ 5 then pyLower ((parts.get? 1).getD "")
      else ""
    else extractLastFallback parts
  else extractLastFallback parts

/-- Python `min(list)` / `max(list)` (the engine only calls them on nonempty
page lists). -/
def pyMinNat : List Nat → Nat
  | [] => 0
  | h :: t => t.foldl min h

def pyMaxNat : List Nat → Nat
  | [] => 0
  | h :: t => t.foldl max h

/-- The `standalone_cards` snapshot: singleton groups whose page is an
insurance or ID card. -/
def standaloneCards (pages : List PageData) (pats : List (String × List Nat)) :
    List (String × Nat × String) :=
  pats.filterMap (fun kv =>
    match kv.2 with
    | [p] =>
      match get_document_type pages p with
      | some dt =>
        if dt == "patient_insurance_card" || dt == "patient_id_card" then some (kv.1, p, dt)
        else none
      | none => none
    | _ => none)

/-- The candidate scan for one standalone card: a strict-middle hit is
definitive and stops the scan; otherwise adjacency (priority 2) beats a
surname match (priority 1), first-found winning on ties. -/
def cardScanAux (pages : List PageData) (p : Nat) (cardLast : String) (selfKey : String) :
    List (String × List Nat) → Option String → Nat → Option String
  | [], best, _ => best
  | (k, pgs) :: rest, best, pri =>
    if k == selfKey then cardScanAux pages p cardLast selfKey rest best pri
    else if has_insurance_or_id_card pages pgs then cardScanAux pages p cardLast selfKey rest best pri
    else
      let mn := pyMinNat pgs
      let mx := pyMaxNat pgs
      if mn < p && p < mx then some k
      else
        let adj := p + 1 == mn || p == mx + 1
        let best1 := if adj && pri < 2 then some k else best
        let pri1 := if adj && pri < 2 then 2 else pri
        let otherLast := extract_last_name k
        let surn := !(cardLast == "") && !(otherLast == "") && cardLast == otherLast
        let best2 := if surn && pri1 < 1 then some k else best1
        let pri2 := if surn && pri1 < 1 then 1 else pri1
        cardScanAux pages p cardLast selfKey rest best2 pri2

def cardScan (pages : List PageData) (pats : List (String × List Nat)) (selfKey : String)
    (p : Nat) (cardLast : String) : Option String :=
  cardScanAux pages p cardLast selfKey pats none 0

def pass4Step (pages : List PageData) (acc : List (String × List Nat) × List String)
    (card : String × Nat × String) : List (String × List Nat) × List String :=
  let (k, p, _) := card
  match cardScan pages acc.1 k p (extract_last_name k) with
  | some b => (alUpdate (fun l => l ++ [p]) acc.1 b, acc.2 ++ [k])
  | none => acc

def pass4 (pages : List PageData) (pats : List (String × List Nat)) :
    List (String × List Nat) :=
  let cards := standaloneCards pages pats
  let res := cards.foldl (pass4Step pages) (pats, [])
  res.2.foldl alErase res.1

/-! ### Assembly -/

def sortNat (l : List Nat) : List Nat := List.insertionSort (· ≤ ·) l

structure GroupResult where
  surgery_schedule : List Nat
  patients : List (String × List Nat)

/-- `group_classification_results_activity`: the whole engine. -/
def group_classification_results (fallback : Fallback) (pages : List PageData) : GroupResult :=
  let st2 := pass2 (pass1 fallback pages)
  let p4 := pass4 pages (pass3 st2.patients).1
  { surgery_schedule := sortNat st2.surgery,
    patients := p4.map (fun kv => (kv.1, sortNat kv.2)) }

/-- Ghost: pages silently lost by the fuzzy pass (merged into an
already-merged-away group). -/
def lostPages (fallback : Fallback) (pages : List PageData) : List Nat :=
  (pass3 (pass2 (pass1 fallback pages)).patients).2

/-! ### Concrete inputs used by the claims -/

/-- The empty fallback parser: `dateutil.parser.parse` raising on every
input. -/
def noFb : Fallback := fun _ => none

/-- Nested/flat key clash probing the `find_field` scan order. -/
def c2Data : Value :=
  .vmap [("a", .vmap [("first_name", .str "x")]), ("first_name", .str "y")]

/-- Three name-only pages whose groups chain-merge in the fuzzy pass, plus a
page whose only identity signal is an unparseable DOB. -/
def c1Pages : List PageData :=
  [ ⟨1, .vmap [("first_name", .str "abc")]⟩,
    ⟨2, .vmap [("first_name", .str "abcde")]⟩,
    ⟨3, .vmap [("first_name", .str "aeb")]⟩,
    ⟨4, .vmap [("dob", .str "garbage")]⟩ ]

/-- A page whose only identity signal is an unparseable DOB. -/
def c5Page : PageData := ⟨1, .vmap [("dob", .str "garbage")]⟩

/-- A page with a name and an unparseable DOB. -/
def c5NamePage : PageData := ⟨1, .vmap [("first_name", .str "Ann"), ("dob", .str "garbage")]⟩

/-! ### C7 -/

/-- C7: `normalize_dob` maps "1990-05-02", "05/02/1990" and "May 2, 1990" to
the canonical underscore-separated zero-padded string "1990_05_02", whatever
the permissive fallback parser does (the strict format list wins first). -/
theorem c7_date_round_trip :
    ∀ fallback : Fallback,
      normalize_dob fallback "1990-05-02" = some "1990_05_02" ∧
      normalize_dob fallback "05/02/1990" = some "1990_05_02" ∧
      normalize_dob fallback "May 2, 1990" = some "1990_05_02" :=
  fun _ => ⟨rfl, rfl, rfl⟩

/-! ### C2 -/

/-- C2 counterexample: on `{"a": {"first_name": "x"}, "first_name": "y"}` the
claim predicts the top-level `"y"`; `find_field` actually returns the nested
`"x"`, because the scan descends into each key's value before reading the
next key of the same mapping. -/
theorem c2_counterexample :
    find_field c2Data firstNameFields = some (.str "x") ∧
    find_field c2Data firstNameFields ≠ some (.str "y") := by
  refine ⟨rfl, fun h => ?_⟩
  have hx : some (Value.str "x") = some (Value.str "y") :=
    (show find_field c2Data firstNameFields = some (.str "x") from rfl) ▸ h
  exact absurd (Value.str.inj (Option.some.inj hx)) (by decide)

/-- C2 amended: the scan order of `find_field` interleaves key checks with
descent: at a mapping it checks the first key and, when that key does not
match, immediately searches that key's entire value before considering the
remaining keys; consequently on the probe input the nested `"x"` is returned
rather than the top-level `"y"`. -/
theorem c2_scan_order :
    (∀ (k : String) (v : Value) (rest : List (String × Value)) (ns : List String),
      (ns.any fun fn => strContains (pyLower k) fn) = false →
      find_field (.vmap ((k, v) :: rest)) ns =
        (match find_field v ns with
         | some r => some r
         | none => find_field (.vmap rest) ns)) ∧
    find_field c2Data firstNameFields = some (.str "x") := by
  refine ⟨fun k v rest ns h => ?_, rfl⟩
  simp [find_field, ffEntries, h]

theorem c2_scan_order_witness :
    find_field (.vmap (("a", Value.vmap [("first_name", Value.str "x")]) ::
        [("first_name", Value.str "y")])) firstNameFields =
      (match find_field (Value.vmap [("first_name", Value.str "x")]) firstNameFields with
       | some r => some r
       | none => find_field (Value.vmap [("first_name", Value.str "y")]) firstNameFields) :=
  c2_scan_order.1 "a" (Value.vmap [("first_name", Value.str "x")])
    [("first_name", Value.str "y")] firstNameFields rfl

/-! ### C4 -/

/-- C4: the engine raises nothing on a fundamentally malformed (non-mapping)
page payload; the page is silently dropped and a normal empty grouping is
returned.  This contradicts the fail-fast requirement of the claim: the
failing input is a page whose payload is the bare string "not a mapping". -/
theorem c4_no_failfast_on_malformed :
    group_classification_results noFb [⟨1, .str "not a mapping"⟩] =
      { surgery_schedule := [], patients := [] } ∧
    (pass1 noFb [⟨1, .str "not a mapping"⟩]).dropped1 = [1] ∧
    find_field (.str "not a mapping") firstNameFields = none :=
  ⟨rfl, rfl, rfl⟩

/-! ### C5 -/

/-- C5 counterexample: a page whose only identity signal is an unparseable
DOB ("garbage") never reaches the deferred matcher — it is silently dropped
by the primary pass, contradicting the claim's "including when the
unparseable DOB is the page's only identity signal". -/
theorem c5_counterexample :
    normalize_dob noFb "garbage" = none ∧
    find_field c5Page.payload dobFields = some (.str "garbage") ∧
    (pass1 noFb [c5Page]).deferred = [] ∧
    (pass1 noFb [c5Page]).dropped1 = [1] ∧
    group_classification_results noFb [c5Page] = { surgery_schedule := [], patients := [] } :=
  ⟨rfl, rfl, rfl, rfl, rfl⟩

/-- C5 amended: an unparseable DOB yields no normalized value (no exception)
and the page is deferred — provided it carries another identity signal (a
nonempty normalized first name, last name, or MRN).  When the unparseable
DOB is the page's only identity signal the primary pass silently drops the
page instead (see the counterexample). -/
theorem c5_unparseable_dob_deferred :
    ∀ (fallback : Fallback) (st : P12State) (pd : PageData),
      pd.payload.isTruthy = true →
      (primaryKeywords.any fun kw => strContains (pyLower (pyStr pd.payload)) kw) = false →
      optValTruthy (find_field pd.payload dobFields) = true →
      dobNormalized fallback (find_field pd.payload dobFields) = none →
      (¬ normField (find_field pd.payload firstNameFields) = "" ∨
       ¬ normField (find_field pd.payload lastNameFields) = "" ∨
       ¬ normMrnField (find_field pd.payload mrnFields) = "") →
      pass1Step fallback st pd =
        { st with deferred := st.deferred ++
            [(pd.page_num, normField (find_field pd.payload firstNameFields),
              normField (find_field pd.payload lastNameFields),
              normMrnField (find_field pd.payload mrnFields), none)] } := by
  intro fb st pd h1 h2 h3 h4 h5
  by_cases hf : normField (find_field pd.payload firstNameFields) = "" <;>
  by_cases hl : normField (find_field pd.payload lastNameFields) = "" <;>
    simp [pass1Step, h1, h2, h3, h4, hf, hl, patientKeyParts, optStrTruthy]
  have hm : ¬ normMrnField (find_field pd.payload mrnFields) = "" := by tauto
  simp [hm]

theorem c5_unparseable_dob_deferred_witness :
    c5NamePage.payload.isTruthy = true ∧
    (primaryKeywords.any fun kw => strContains (pyLower (pyStr c5NamePage.payload)) kw) = false ∧
    optValTruthy (find_field c5NamePage.payload dobFields) = true ∧
    dobNormalized noFb (find_field c5NamePage.payload dobFields) = none ∧
    pass1Step noFb initState c5NamePage =
      { initState with deferred := [(1, "ann", "", "", none)] } :=
  ⟨rfl, rfl, rfl, rfl,
    c5_unparseable_dob_deferred noFb initState c5NamePage rfl rfl rfl rfl
      (Or.inl (by decide))⟩

/-! ### C3 -/

/-- C3 counterexample: the singleton `jon_doe` is at Levenshtein distance
exactly 2 from `jane_doe` (the claim asserts the distance exceeds 2), so the
fuzzy pass DOES merge it into `jane_doe_1980_01_01`. -/
theorem c3_counterexample :
    (pass3 [("jane_doe_1980_01_01", [1, 2]), ("jon_doe", [4])]).1 =
      [("jane_doe_1980_01_01", [1, 2, 4])] ∧
    levenshtein_distance (pyLower (extract_name_string "jon_doe"))
      (pyLower (extract_name_string "jane_doe_1980_01_01")) = 2 :=
  ⟨rfl, rfl⟩

/-- C3 amended: with one non-singleton group and one singleton, the fuzzy
pass merges the singleton exactly when the case-insensitive Levenshtein
distance between the extracted names (DOB suffix stripped) is at most 2.
Both `jon_doe` (distance 2) and `jane_doe` (distance 0) therefore merge into
`jane_doe_1980_01_01`. -/
theorem c3_fuzzy_merge_iff :
    ∀ (k1 k2 : String) (ps1 : List Nat) (p : Nat),
      ps1.length ≠ 1 → k1 ≠ k2 →
      pass3 [(k1, ps1), (k2, [p])] =
        (if levenshtein_distance (pyLower (extract_name_string k2))
              (pyLower (extract_name_string k1)) ≤ 2
         then ([(k1, ps1 ++ [p])], ([] : List Nat))
         else ([(k1, ps1), (k2, [p])], [])) := by
  intro k1 k2 ps1 p h1 h2
  have hb : (k1 == k2) = false := by simp [h2]
  have hb2 : (k2 == k1) = false := by simp [Ne.symm h2]
  have hlen : (ps1.length == 1) = false := by simp [h1]
  by_cases hd : levenshtein_distance (pyLower (extract_name_string k2))
      (pyLower (extract_name_string k1)) ≤ 2 <;>
    simp [pass3, pass3Step, pass3Best, pass3BestStep, alGet, alUpdate, alErase, hb, hb2, hlen,
      hd, h2, Ne.symm h2]

theorem c3_fuzzy_merge_iff_witness :
    ([1, 2] : List Nat).length ≠ 1 ∧ "jane_doe_1980_01_01" ≠ "jane_doe" ∧
    pass3 [("jane_doe_1980_01_01", [1, 2]), ("jane_doe", [4])] =
      (if levenshtein_distance (pyLower (extract_name_string "jane_doe"))
            (pyLower (extract_name_string "jane_doe_1980_01_01")) ≤ 2
       then ([("jane_doe_1980_01_01", [1, 2, 4])], ([] : List Nat))
       else ([("jane_doe_1980_01_01", [1, 2]), ("jane_doe", [4])], [])) :=
  ⟨by decide, by decide,
    c3_fuzzy_merge_iff "jane_doe_1980_01_01" "jane_doe" [1, 2] 4 (by decide) (by decide)⟩

/-! ### C6 -/

/-- A state with three groups set up so that a deferred page's name matches
the first, its MRN is in the second's `mrn_seen`, and its DOB equals the
third's `dob`. -/
def c6State : P12State :=
  { surgery := []
    patients := [("jane_doe_1980_01_01", [1]), ("mrn_X", [2]), ("bob_lee_1970_02_02", [3])]
    meta := [("jane_doe_1980_01_01", ⟨[], some "1980_01_01"⟩), ("mrn_X", ⟨["X"], none⟩),
             ("bob_lee_1970_02_02", ⟨[], some "1970_02_02"⟩)]
    deferred := []
    dropped1 := []
    dropped2 := [] }

/-- C6: the deferred matcher tries name, then MRN, then DOB, then a new
group, stopping at the first success: whenever the name scan succeeds the
whole step is the name-match update (MRN and DOB scans are never consulted);
in the concrete state the page joins the name-matching group even though its
MRN and DOB match two other groups. -/
theorem c6_deferred_priority :
    (∀ (st : P12State) (n : Nat) (first last mrn : String) (dob : Option String) (key : String),
      nameScan st.patients first last = some key →
      pass2Step st (n, first, last, mrn, dob) = applyNameMatch st key n mrn dob) ∧
    mrnScan c6State.meta "X" c6State.patients = some "mrn_X" ∧
    dobScan c6State.meta (some "1970_02_02") c6State.patients = some "bob_lee_1970_02_02" ∧
    nameScan c6State.patients "jane" "doe" = some "jane_doe_1980_01_01" ∧
    (pass2Step c6State (7, "jane", "doe", "X", some "1970_02_02")).patients =
      [("jane_doe_1980_01_01", [1, 7]), ("mrn_X", [2]), ("bob_lee_1970_02_02", [3])] := by
  refine ⟨fun st n first last mrn dob key h => ?_, rfl, rfl, rfl, rfl⟩
  simp [pass2Step, h]

theorem c6_deferred_priority_witness :
    nameScan c6State.patients "jane" "doe" = some "jane_doe_1980_01_01" ∧
    pass2Step c6State (7, "jane", "doe", "X", some "1970_02_02") =
      applyNameMatch c6State "jane_doe_1980_01_01" 7 "X" (some "1970_02_02") :=
  ⟨rfl, c6_deferred_priority.1 c6State 7 "jane" "doe" "X" (some "1970_02_02") _ rfl⟩

/-! ### C8 -/

/-- A candidate group is "middle-eligible" for a standalone card: a different
group, with no insurance/ID-card page, whose page span strictly contains the
card's page number. -/
def eligMiddle (pages : List PageData) (selfKey : String) (p : Nat)
    (kv : String × List Nat) : Bool :=
  !(kv.1 == selfKey) && !(has_insurance_or_id_card pages kv.2) &&
  (pyMinNat kv.2 < p && p < pyMaxNat kv.2)

/-- The card scan returns the first middle-eligible candidate no matter what
earlier adjacency or surname matches set the running best to. -/
theorem cardScanAux_middle (pages : List PageData) (selfKey cardLast : String) (p : Nat) :
    ∀ (pats : List (String × List Nat)) (kv : String × List Nat),
      pats.find? (eligMiddle pages selfKey p) = some kv →
      ∀ best pri, cardScanAux pages p cardLast selfKey pats best pri = some kv.1 := by
  intro pats
  induction pats with
  | nil => intro kv h; simp at h
  | cons hd tl ih =>
    intro kv h best pri
    rcases hd with ⟨k, pgs⟩
    by_cases he : eligMiddle pages selfKey p (k, pgs) = true
    · rw [List.find?_cons_of_pos _ he] at h
      injection h with h; subst h
      have he' := he
      unfold eligMiddle at he'
      simp only [Bool.and_eq_true, Bool.not_eq_true'] at he'
      obtain ⟨⟨h1, h2⟩, h3⟩ := he'
      unfold cardScanAux
      simp [h1, h2, h3]
    · rw [List.find?_cons_of_neg _ he] at h
      unfold cardScanAux
      by_cases hk : (k == selfKey) = true
      · simp [hk, ih kv h]
      · by_cases hins : has_insurance_or_id_card pages pgs = true
        · simp [hk, hins, ih kv h]
        · have hmid : (pyMinNat pgs < p && p < pyMaxNat pgs) = false := by
            rcases Bool.eq_false_or_eq_true (pyMinNat pgs < p && p < pyMaxNat pgs) with hm | hm
            · exact absurd (by simp [eligMiddle, hk, hins, hm]) he
            · exact hm
          simp [hk, hins, hmid, ih kv h]

/-- The C8 scenario: a standalone insurance card at page 5; an earlier
candidate with a matching surname; a later candidate spanning pages 4–6. -/
def c8Pages : List PageData :=
  [ ⟨4, .vmap [("document_type", .str "progress_note")]⟩,
    ⟨5, .vmap [("document_type", .str "patient_insurance_card")]⟩,
    ⟨6, .vmap [("document_type", .str "progress_note")]⟩,
    ⟨9, .vmap [("document_type", .str "progress_note")]⟩ ]

def c8Pats : List (String × List Nat) :=
  [("zoe_jones", [9]), ("amy_jones", [5]), ("cara_lee_1980_01_01", [4, 6])]

/-- C8: a middle hit is definitive — the scan stops at the first
middle-eligible candidate whatever earlier surname/adjacency matches were
recorded; in the scenario the card at page 5 merges into the group spanning
pages 4 and 6 even though `zoe_jones`, found earlier, matches its surname. -/
theorem c8_card_middle_rule :
    (∀ (pages : List PageData) (pats : List (String × List Nat))
        (selfKey cardLast : String) (p : Nat) (kv : String × List Nat),
      pats.find? (eligMiddle pages selfKey p) = some kv →
      cardScan pages pats selfKey p cardLast = some kv.1) ∧
    get_document_type c8Pages 5 = some "patient_insurance_card" ∧
    extract_last_name "amy_jones" = "jones" ∧
    extract_last_name "zoe_jones" = "jones" ∧
    pass4 c8Pages c8Pats = [("zoe_jones", [9]), ("cara_lee_1980_01_01", [4, 6, 5])] :=
  ⟨fun pages pats selfKey cardLast p kv h =>
    cardScanAux_middle pages selfKey cardLast p pats kv h none 0,
   rfl, rfl, rfl, rfl⟩

theorem c8_card_middle_rule_witness :
    c8Pats.find? (eligMiddle c8Pages "amy_jones" 5) = some ("cara_lee_1980_01_01", [4, 6]) ∧
    cardScan c8Pages c8Pats "amy_jones" 5 "jones" = some "cara_lee_1980_01_01" :=
  ⟨rfl, c8_card_middle_rule.1 c8Pages c8Pats "amy_jones" "jones" 5 ("cara_lee_1980_01_01", [4, 6]) rfl⟩

/-! ### Counting kit -/

def keysOf (l : List (String × α)) : List String := l.map Prod.fst

def keysNodup (l : List (String × α)) : Prop := (keysOf l).Nodup

/-- Total occurrences of page number `n` across all groups. -/
def pagesCount (n : Nat) (pats : List (String × List Nat)) : Nat :=
  (pats.map (fun kv => kv.2.count n)).sum

/-- Occurrences of `n` in groups not queued for deletion. -/
def restCount (n : Nat) (pats : List (String × List Nat)) (rem : List String) : Nat :=
  pagesCount n (pats.filter (fun kv => !(rem.contains kv.1)))

lemma alGet_none_iff (l : List (String × α)) (k : String) :
    alGet l k = none ↔ k ∉ keysOf l := by
  induction l with
  | nil => simp [alGet, keysOf]
  | cons hd tl ih =>
    rcases hd with ⟨k', v⟩
    by_cases h : k' = k
    · subst h; simp [alGet, keysOf]
    · simp [alGet, keysOf, h, Ne.symm h, beq_iff_eq] at ih ⊢
      exact ih

lemma alUpdate_of_none (f : α → α) (l : List (String × α)) (k : String)
    (h : alGet l k = none) : alUpdate f l k = l := by
  induction l with
  | nil => simp [alUpdate]
  | cons hd tl ih =>
    rcases hd with ⟨k', v⟩
    by_cases hk : (k' == k) = true
    · simp [alGet, hk] at h
    · simp [alGet, hk] at h
      simp [alUpdate, hk, ih h]

lemma keysOf_alUpdate (f : α → α) (l : List (String × α)) (k : String) :
    keysOf (alUpdate f l k) = keysOf l := by
  induction l with
  | nil => simp [alUpdate]
  | cons hd tl ih =>
    rcases hd with ⟨k', v⟩
    by_cases hk : (k' == k) = true <;> simp [alUpdate, hk, keysOf] <;>
      simpa [keysOf] using ih

lemma alGet_append_of_none (l : List (String × α)) (k : String) (v : α)
    (h : alGet l k = none) : alGet (l ++ [(k, v)]) k = some v := by
  induction l with
  | nil => simp [alGet]
  | cons hd tl ih =>
    rcases hd with ⟨k', v'⟩
    by_cases hk : (k' == k) = true
    · simp [alGet, hk] at h
    · simp [alGet, hk] at h ⊢
      exact ih h

lemma pagesCount_cons (n : Nat) (k : String) (v : List Nat) (tl : List (String × List Nat)) :
    pagesCount n ((k, v) :: tl) = v.count n + pagesCount n tl := by
  simp [pagesCount]

lemma pagesCount_append (n : Nat) (l l' : List (String × List Nat)) :
    pagesCount n (l ++ l') = pagesCount n l + pagesCount n l' := by
  simp [pagesCount]

lemma pagesCount_alUpdate_append (n : Nat) (xs : List Nat) (l : List (String × List Nat))
    (k : String) (h : (alGet l k).isSome = true) :
    pagesCount n (alUpdate (fun pgs => pgs ++ xs) l k) = pagesCount n l + xs.count n := by
  induction l with
  | nil => simp [alGet] at h
  | cons hd tl ih =>
    rcases hd with ⟨k', v⟩
    by_cases hk : (k' == k) = true
    · simp [alUpdate, hk, pagesCount_cons, List.count_append]
      omega
    · simp [alGet, hk] at h
      simp [alUpdate, hk, pagesCount_cons, ih h]
      omega

/-- Pass-1 measure: every page location including the deferred queue and the
ghost drop lists. -/
def t1Count (n : Nat) (st : P12State) : Nat :=
  st.surgery.count n + pagesCount n st.patients +
  (st.deferred.map (fun t => t.1)).count n + st.dropped1.count n + st.dropped2.count n

/-- Pass-2 measure: deferred pages no longer counted. -/
def t2Count (n : Nat) (st : P12State) : Nat :=
  st.surgery.count n + pagesCount n st.patients + st.dropped1.count n + st.dropped2.count n

lemma t1_pass1Step (fb : Fallback) (st : P12State) (pd : PageData) (n : Nat) :
    t1Count n (pass1Step fb st pd) = t1Count n st + [pd.page_num].count n := by
  simp only [pass1Step]
  split_ifs with h1 h2 h3 h4 h5 h6 h7
  any_goals (simp [t1Count, List.count_append]; omega)
  · -- new key, no MRN recorded
    set key := pyJoin "_" (patientKeyParts (normField (find_field pd.payload firstNameFields))
      (normField (find_field pd.payload lastNameFields))
      (dobNormalized fb (find_field pd.payload dobFields))) with hkey
    have hnone : alGet st.patients key = none := Option.isNone_iff_eq_none.mp h6
    have hsome : (alGet (st.patients ++ [(key, ([] : List Nat))]) key).isSome = true := by
      simp [alGet_append_of_none _ _ _ hnone]
    simp only [t1Count]
    rw [pagesCount_alUpdate_append n [pd.page_num] _ key hsome, pagesCount_append]
    simp [pagesCount]
    omega
  · -- new key, MRN recorded
    set key := pyJoin "_" (patientKeyParts (normField (find_field pd.payload firstNameFields))
      (normField (find_field pd.payload lastNameFields))
      (dobNormalized fb (find_field pd.payload dobFields))) with hkey
    have hnone : alGet st.patients key = none := Option.isNone_iff_eq_none.mp h6
    have hsome : (alGet (st.patients ++ [(key, ([] : List Nat))]) key).isSome = true := by
      simp [alGet_append_of_none _ _ _ hnone]
    simp only [t1Count]
    rw [pagesCount_alUpdate_append n [pd.page_num] _ key hsome, pagesCount_append]
    simp [pagesCount]
    omega
  · -- existing key, no MRN recorded
    set key := pyJoin "_" (patientKeyParts (normField (find_field pd.payload firstNameFields))
      (normField (find_field pd.payload lastNameFields))
      (dobNormalized fb (find_field pd.payload dobFields))) with hkey
    have hsome : (alGet st.patients key).isSome = true := by
      cases hg : alGet st.patients key
      · simp [hg] at h6
      · simp
    simp [t1Count, pagesCount_alUpdate_append n [pd.page_num] _ key hsome]
    omega
  · -- existing key, MRN recorded
    set key := pyJoin "_" (patientKeyParts (normField (find_field pd.payload firstNameFields))
      (normField (find_field pd.payload lastNameFields))
      (dobNormalized fb (find_field pd.payload dobFields))) with hkey
    have hsome : (alGet st.patients key).isSome = true := by
      cases hg : alGet st.patients key
      · simp [hg] at h6
      · simp
    simp [t1Count, pagesCount_alUpdate_append n [pd.page_num] _ key hsome]
    omega

lemma t1_pass1_fold (fb : Fallback) (n : Nat) :
    ∀ (pages : List PageData) (st : P12State),
      t1Count n (pages.foldl (pass1Step fb) st) =
        t1Count n st + (pages.map PageData.page_num).count n := by
  intro pages
  induction pages with
  | nil => intro st; simp
  | cons pd tl ih =>
    intro st
    simp only [List.foldl_cons, List.map_cons, List.count_cons]
    rw [ih, t1_pass1Step]
    simp [List.count_cons]
    omega

lemma t1_pass1 (fb : Fallback) (pages : List PageData) (n : Nat) :
    t1Count n (pass1 fb pages) = (pages.map PageData.page_num).count n := by
  rw [pass1, t1_pass1_fold]
  simp [t1Count, initState, pagesCount]

lemma alGet_isSome_of_mem (l : List (String × α)) (k : String) (h : k ∈ keysOf l) :
    (alGet l k).isSome = true := by
  induction l with
  | nil => simp [keysOf] at h
  | cons hd tl ih =>
    rcases hd with ⟨k', v⟩
    by_cases hk : (k' == k) = true
    · simp [alGet, hk]
    · have hne : k' ≠ k := by simpa using hk
      simp only [keysOf, List.map_cons, List.mem_cons] at h
      rcases h with h | h
      · exact absurd h.symm hne
      · simp [alGet, hk, ih h]

lemma keysNodup_create_append (l : List (String × α)) (key : String) (v : α)
    (hget : alGet l key = none) (h : keysNodup l) : keysNodup (l ++ [(key, v)]) := by
  have hmem : key ∉ keysOf l := (alGet_none_iff l key).mp hget
  simp only [keysNodup, keysOf, List.map_append, List.map_cons, List.map_nil] at h ⊢
  refine (List.nodup_append).mpr ⟨h, List.nodup_singleton _, ?_⟩
  intro x hx hxk
  rw [List.mem_singleton] at hxk
  subst hxk
  exact hmem hx

lemma keysNodup_alUpdate (f : α → α) (l : List (String × α)) (k : String)
    (h : keysNodup l) : keysNodup (alUpdate f l k) := by
  simpa [keysNodup, keysOf_alUpdate] using h

lemma keysNodup_createUpdate (l : List (String × α)) (key : String) (v : α) (f : α → α)
    (h : keysNodup l) :
    keysNodup (alUpdate f (if (alGet l key).isNone = true then l ++ [(key, v)] else l) key) := by
  by_cases hc : (alGet l key).isNone = true
  · rw [if_pos hc]
    exact keysNodup_alUpdate _ _ _
      (keysNodup_create_append _ _ _ (Option.isNone_iff_eq_none.mp hc) h)
  · rw [if_neg hc]
    exact keysNodup_alUpdate _ _ _ h

lemma pagesCount_createUpdate (l : List (String × List Nat)) (key : String) (m n : Nat) :
    pagesCount n (alUpdate (fun pgs => pgs ++ [m])
      (if (alGet l key).isNone = true then l ++ [(key, [])] else l) key) =
    pagesCount n l + [m].count n := by
  by_cases h : (alGet l key).isNone = true
  · rw [if_pos h]
    have hnone : alGet l key = none := Option.isNone_iff_eq_none.mp h
    have hsome : (alGet (l ++ [(key, ([] : List Nat))]) key).isSome = true := by
      simp [alGet_append_of_none _ _ _ hnone]
    rw [pagesCount_alUpdate_append _ _ _ _ hsome, pagesCount_append]
    simp [pagesCount]
  · rw [if_neg h]
    have hsome : (alGet l key).isSome = true := by
      cases hg : alGet l key
      · simp [hg] at h
      · simp
    rw [pagesCount_alUpdate_append _ _ _ _ hsome]

lemma keysNodup_pass1Step (fb : Fallback) (st : P12State) (pd : PageData)
    (h : keysNodup st.patients) : keysNodup (pass1Step fb st pd).patients := by
  simp only [pass1Step]
  split_ifs with h1 h2 h3 h4 h5 h6 h7
  any_goals simpa using h
  all_goals first
    | exact keysNodup_alUpdate _ _ _
        (keysNodup_create_append _ _ _ (Option.isNone_iff_eq_none.mp h6) h)
    | exact keysNodup_alUpdate _ _ _ h

lemma nameScan_mem : ∀ (pats : List (String × List Nat)) (first last key : String),
    nameScan pats first last = some key → key ∈ keysOf pats := by
  intro pats
  induction pats with
  | nil => intro f l k h; simp [nameScan] at h
  | cons hd tl ih =>
    intro f l k h
    rcases hd with ⟨k', pgs⟩
    simp only [nameScan] at h
    split_ifs at h
    all_goals first
      | (injection h with h2; subst h2; simp [keysOf])
      | (simp only [keysOf, List.map_cons, List.mem_cons]
         exact Or.inr (ih _ _ _ h))

lemma mrnScan_mem : ∀ (pats : List (String × List Nat)) (meta : List (String × MetaData))
    (mrn key : String), mrnScan meta mrn pats = some key → key ∈ keysOf pats := by
  intro pats
  induction pats with
  | nil => intro meta mrn k h; simp [mrnScan] at h
  | cons hd tl ih =>
    intro meta mrn k h
    rcases hd with ⟨k', pgs⟩
    simp only [mrnScan] at h
    split_ifs at h
    all_goals first
      | (injection h with h2; subst h2; simp [keysOf])
      | (simp only [keysOf, List.map_cons, List.mem_cons]
         exact Or.inr (ih _ _ _ h))

lemma dobScan_mem : ∀ (pats : List (String × List Nat)) (meta : List (String × MetaData))
    (dob : Option String) (key : String),
    dobScan meta dob pats = some key → key ∈ keysOf pats := by
  intro pats
  induction pats with
  | nil => intro meta dob k h; simp [dobScan] at h
  | cons hd tl ih =>
    intro meta dob k h
    rcases hd with ⟨k', pgs⟩
    simp only [dobScan] at h
    split_ifs at h
    all_goals first
      | (injection h with h2; subst h2; simp [keysOf])
      | (simp only [keysOf, List.map_cons, List.mem_cons]
         exact Or.inr (ih _ _ _ h))

lemma alGet_append_isSome (l : List (String × α)) (key : String) (v : α) :
    (alGet (l ++ [(key, v)]) key).isSome = true := by
  induction l with
  | nil => simp [alGet]
  | cons hd tl ih =>
    rcases hd with ⟨k', v'⟩
    by_cases hk : (k' == key) = true <;> simp [alGet, hk, ih]

lemma isSome_of_not_isNone {o : Option α} (h : ¬ o.isNone = true) : o.isSome = true := by
  cases o <;> simp_all

lemma pagesCount_au_append_new (n m : Nat) (l : List (String × List Nat)) (key : String) :
    pagesCount n (alUpdate (fun pgs => pgs ++ [m]) (l ++ [(key, [])]) key) =
      pagesCount n l + [m].count n := by
  rw [pagesCount_alUpdate_append _ _ _ _ (alGet_append_isSome _ _ _), pagesCount_append]
  simp [pagesCount]

lemma t2_pass2NewGroup (st : P12State) (n1 : Nat) (first last mrn : String)
    (dob : Option String) (n : Nat) :
    t2Count n (pass2NewGroup st n1 first last mrn dob) = t2Count n st + [n1].count n := by
  simp only [pass2NewGroup]
  split_ifs
  any_goals (simp [t2Count, List.count_append]; omega)
  all_goals simp only [t2Count]
  all_goals (rw [pagesCount_createUpdate]; omega)

lemma t2_applyNameMatch (st : P12State) (key : String) (n1 : Nat) (mrn : String)
    (dob : Option String) (n : Nat) (h : key ∈ keysOf st.patients) :
    t2Count n (applyNameMatch st key n1 mrn dob) = t2Count n st + [n1].count n := by
  simp only [applyNameMatch, t2Count]
  rw [pagesCount_alUpdate_append _ _ _ _ (alGet_isSome_of_mem _ _ h)]
  omega

lemma t2_applyMrnMatch (st : P12State) (key : String) (n1 : Nat)
    (dob : Option String) (n : Nat) (h : key ∈ keysOf st.patients) :
    t2Count n (applyMrnMatch st key n1 dob) = t2Count n st + [n1].count n := by
  simp only [applyMrnMatch, t2Count]
  rw [pagesCount_alUpdate_append _ _ _ _ (alGet_isSome_of_mem _ _ h)]
  omega

lemma t2_applyDobMatch (st : P12State) (key : String) (n1 : Nat) (mrn : String)
    (n : Nat) (h : key ∈ keysOf st.patients) :
    t2Count n (applyDobMatch st key n1 mrn) = t2Count n st + [n1].count n := by
  simp only [applyDobMatch, t2Count]
  rw [pagesCount_alUpdate_append _ _ _ _ (alGet_isSome_of_mem _ _ h)]
  omega

lemma t2_pass2Step (st : P12State) (t : Nat × String × String × String × Option String)
    (n : Nat) : t2Count n (pass2Step st t) = t2Count n st + [t.1].count n := by
  obtain ⟨n1, first, last, mrn, dob⟩ := t
  simp only [pass2Step]
  cases hname : nameScan st.patients first last with
  | some key => exact t2_applyNameMatch st key n1 mrn dob n (nameScan_mem _ _ _ _ hname)
  | none =>
    cases hmrn : (if mrn == "" then none else mrnScan st.meta mrn st.patients) with
    | some key =>
      have hkey : key ∈ keysOf st.patients := by
        by_cases hm : (mrn == "") = true
        · rw [if_pos hm] at hmrn; cases hmrn
        · rw [if_neg hm] at hmrn; exact mrnScan_mem _ _ _ _ hmrn
      exact t2_applyMrnMatch st key n1 dob n hkey
    | none =>
      cases hdob : (if optStrTruthy dob = true then dobScan st.meta dob st.patients else none) with
      | some key =>
        have hkey : key ∈ keysOf st.patients := by
          by_cases hd : optStrTruthy dob = true
          · rw [if_pos hd] at hdob; exact dobScan_mem _ _ _ _ hdob
          · rw [if_neg hd] at hdob; cases hdob
        exact t2_applyDobMatch st key n1 mrn n hkey
      | none => exact t2_pass2NewGroup st n1 first last mrn dob n

lemma keysNodup_pass2NewGroup (st : P12State) (n1 : Nat) (first last mrn : String)
    (dob : Option String) (h : keysNodup st.patients) :
    keysNodup (pass2NewGroup st n1 first last mrn dob).patients := by
  simp only [pass2NewGroup]
  split_ifs
  any_goals simpa using h
  all_goals exact keysNodup_createUpdate st.patients _ [] _ h

lemma keysNodup_pass2Step (st : P12State) (t : Nat × String × String × String × Option String)
    (h : keysNodup st.patients) : keysNodup (pass2Step st t).patients := by
  obtain ⟨n1, first, last, mrn, dob⟩ := t
  simp only [pass2Step]
  cases hname : nameScan st.patients first last with
  | some key => simpa [applyNameMatch, keysNodup, keysOf_alUpdate] using h
  | none =>
    cases hmrn : (if mrn == "" then none else mrnScan st.meta mrn st.patients) with
    | some key => simpa [applyMrnMatch, keysNodup, keysOf_alUpdate] using h
    | none =>
      cases hdob : (if optStrTruthy dob = true then dobScan st.meta dob st.patients else none) with
      | some key => simpa [applyDobMatch, keysNodup, keysOf_alUpdate] using h
      | none => exact keysNodup_pass2NewGroup st n1 first last mrn dob h

lemma t2_pass2_fold (n : Nat) :
    ∀ (ds : List (Nat × String × String × String × Option String)) (st : P12State),
      t2Count n (ds.foldl pass2Step st) = t2Count n st + (ds.map (fun t => t.1)).count n := by
  intro ds
  induction ds with
  | nil => intro st; simp
  | cons t tl ih =>
    intro st
    simp only [List.foldl_cons, List.map_cons, List.count_cons]
    rw [ih, t2_pass2Step]
    simp [List.count_cons]
    omega

lemma keysNodup_fold_pass2 :
    ∀ (ds : List (Nat × String × String × String × Option String)) (st : P12State),
      keysNodup st.patients → keysNodup ((ds.foldl pass2Step st)).patients := by
  intro ds
  induction ds with
  | nil => intro st h; simpa using h
  | cons t tl ih => intro st h; exact ih _ (keysNodup_pass2Step st t h)

lemma keysNodup_fold_pass1 (fb : Fallback) :
    ∀ (pages : List PageData) (st : P12State),
      keysNodup st.patients → keysNodup ((pages.foldl (pass1Step fb) st)).patients := by
  intro pages
  induction pages with
  | nil => intro st h; simpa using h
  | cons pd tl ih => intro st h; exact ih _ (keysNodup_pass1Step fb st pd h)

lemma t1_eq_t2 (st : P12State) (n : Nat) :
    t1Count n st = t2Count n st + (st.deferred.map (fun t => t.1)).count n := by
  simp [t1Count, t2Count]
  omega

/-- After the first two passes, every input page number is accounted for:
surgery pages + group pages + silently dropped pages. -/
lemma t2_pass12 (fb : Fallback) (pages : List PageData) (n : Nat) :
    t2Count n (pass2 (pass1 fb pages)) = (pages.map PageData.page_num).count n := by
  rw [pass2, t2_pass2_fold, ← t1_eq_t2, t1_pass1]

lemma keysNodup_pass12 (fb : Fallback) (pages : List PageData) :
    keysNodup (pass2 (pass1 fb pages)).patients := by
  rw [pass2]
  apply keysNodup_fold_pass2
  rw [pass1]
  apply keysNodup_fold_pass1
  simp [initState, keysNodup, keysOf]

/-! ### Fuzzy-pass accounting -/

/-- Pass-3/4 measure: pages in not-yet-deleted groups plus ghost-lost pages. -/
def t3Count (n : Nat) (acc : List (String × List Nat) × List String × List Nat) : Nat :=
  restCount n acc.1 acc.2.1 + acc.2.2.count n

lemma alGet_some_mem (l : List (String × α)) (k : String) (v : α)
    (h : alGet l k = some v) : k ∈ keysOf l := by
  induction l with
  | nil => simp [alGet] at h
  | cons hd tl ih =>
    rcases hd with ⟨k', v'⟩
    by_cases hk : (k' == k) = true
    · have : k' = k := by simpa using hk
      subst this; simp [keysOf]
    · simp only [alGet, hk, if_neg, Bool.false_eq_true, not_false_eq_true] at h
      simp only [keysOf, List.map_cons, List.mem_cons]
      exact Or.inr (by simpa [keysOf] using ih h)

lemma restCount_cons (n : Nat) (k : String) (v : List Nat) (tl : List (String × List Nat))
    (rem : List String) :
    restCount n ((k, v) :: tl) rem =
      (if k ∈ rem then 0 else v.count n) + restCount n tl rem := by
  by_cases h : k ∈ rem <;> simp [restCount, List.filter_cons, h, pagesCount_cons]

lemma restCount_nil_rem (n : Nat) (l : List (String × List Nat)) :
    restCount n l [] = pagesCount n l := by
  induction l with
  | nil => rfl
  | cons hd tl ih =>
    rcases hd with ⟨k, v⟩
    rw [restCount_cons, pagesCount_cons, ih]
    simp

lemma restCount_alUpdate_inRem (n : Nat) (f : List Nat → List Nat)
    (l : List (String × List Nat)) (b : String) (rem : List String)
    (h : b ∈ rem) :
    restCount n (alUpdate f l b) rem = restCount n l rem := by
  induction l with
  | nil => simp [alUpdate]
  | cons hd tl ih =>
    rcases hd with ⟨k, v⟩
    by_cases hk : (k == b) = true
    · have hkb : k = b := by simpa using hk
      subst hkb
      simp [alUpdate, restCount_cons, h]
    · simp only [alUpdate, hk, if_neg, Bool.false_eq_true, not_false_eq_true]
      rw [restCount_cons, restCount_cons, ih]

lemma restCount_alUpdate_append (n : Nat) (xs : List Nat)
    (l : List (String × List Nat)) (b : String) (rem : List String)
    (hb : (alGet l b).isSome = true) (hrem : b ∉ rem) :
    restCount n (alUpdate (fun pgs => pgs ++ xs) l b) rem =
      restCount n l rem + xs.count n := by
  induction l with
  | nil => simp [alGet] at hb
  | cons hd tl ih =>
    rcases hd with ⟨k, v⟩
    by_cases hk : (k == b) = true
    · have hkb : k = b := by simpa using hk
      subst hkb
      simp [alUpdate, restCount_cons, hrem, List.count_append]
      omega
    · simp only [alGet, hk, if_neg, Bool.false_eq_true, not_false_eq_true] at hb
      simp only [alUpdate, hk, if_neg, Bool.false_eq_true, not_false_eq_true]
      rw [restCount_cons, restCount_cons, ih hb]
      omega

lemma restCount_rem_extend_of_notmem (n : Nat) (l : List (String × List Nat))
    (rem : List String) (key : String) (h : key ∉ keysOf l) :
    restCount n l (rem ++ [key]) = restCount n l rem := by
  induction l with
  | nil => simp [restCount]
  | cons hd tl ih =>
    rcases hd with ⟨k, v⟩
    simp only [keysOf, List.map_cons, List.mem_cons, not_or] at h
    obtain ⟨hne, htl⟩ := h
    rw [restCount_cons, restCount_cons, ih (by simpa [keysOf] using htl)]
    have hcont : (k ∈ rem ++ [key]) ↔ (k ∈ rem) := by
      simp [List.mem_append, Ne.symm hne]
    by_cases hkr : k ∈ rem <;> simp [hkr, hcont]

lemma restCount_rem_extend (n : Nat) (l : List (String × List Nat))
    (rem : List String) (key : String) (pgs : List Nat)
    (hget : alGet l key = some pgs) (hnodup : keysNodup l)
    (hrem : key ∉ rem) :
    restCount n l rem = restCount n l (rem ++ [key]) + pgs.count n := by
  induction l with
  | nil => simp [alGet] at hget
  | cons hd tl ih =>
    rcases hd with ⟨k, v⟩
    simp only [keysNodup, keysOf, List.map_cons, List.nodup_cons] at hnodup
    obtain ⟨hknot, htlnodup⟩ := hnodup
    by_cases hk : (k == key) = true
    · have hkb : k = key := by simpa using hk
      subst hkb
      simp only [alGet, beq_self_eq_true, if_pos] at hget
      injection hget with hv; subst hv
      rw [restCount_cons, restCount_cons,
        restCount_rem_extend_of_notmem n tl rem k (by simpa [keysOf] using hknot)]
      have h1 : k ∈ rem ++ [k] := by simp
      simp [hrem, h1]
      omega
    · have hne : k ≠ key := by simpa using hk
      simp only [alGet, hk, if_neg, Bool.false_eq_true, not_false_eq_true] at hget
      rw [restCount_cons, restCount_cons, ih hget htlnodup]
      have hcont : (k ∈ rem ++ [key]) ↔ (k ∈ rem) := by
        simp [List.mem_append, hne]
      by_cases hkr : k ∈ rem <;> simp [hkr, hcont] <;> omega

lemma pass3BestStep_cases (selfKey s : String) (acc : Option (String × Nat))
    (kv : String × List Nat) :
    pass3BestStep selfKey s acc kv = acc ∨
    (∃ d, pass3BestStep selfKey s acc kv = some (kv.1, d) ∧ kv.1 ≠ selfKey) := by
  unfold pass3BestStep
  split_ifs with h1 h2
  · exact Or.inl rfl
  · exact Or.inr ⟨_, rfl, by simpa using h1⟩
  · exact Or.inl rfl

lemma pass3Best_aux (selfKey s : String) :
    ∀ (pats : List (String × List Nat)) (acc : Option (String × Nat)) (b : String × Nat),
      pats.foldl (pass3BestStep selfKey s) acc = some b →
      acc = some b ∨ (b.1 ∈ keysOf pats ∧ b.1 ≠ selfKey) := by
  intro pats
  induction pats with
  | nil => intro acc b h; exact Or.inl h
  | cons kv tl ih =>
    intro acc b h
    rw [List.foldl_cons] at h
    rcases ih _ _ h with hstep | hmem
    · rcases pass3BestStep_cases selfKey s acc kv with he | ⟨d, he, hne⟩
      · rw [he] at hstep; exact Or.inl hstep
      · rw [he] at hstep
        injection hstep with h3
        refine Or.inr ⟨?_, ?_⟩
        · rw [← h3]
          simp [keysOf]
        · rw [← h3]; exact hne
    · refine Or.inr ⟨?_, hmem.2⟩
      simp only [keysOf, List.map_cons, List.mem_cons]
      exact Or.inr hmem.1

lemma pass3Best_sound (pats : List (String × List Nat)) (selfKey s : String)
    (b : String × Nat) (h : pass3Best pats selfKey s = some b) :
    b.1 ∈ keysOf pats ∧ b.1 ≠ selfKey := by
  rcases pass3Best_aux selfKey s pats none b h with h1 | h2
  · cases h1
  · exact h2

lemma pass3Step_props (acc : List (String × List Nat) × List String × List Nat) (key : String)
    (h1 : keysNodup acc.1) (h2 : key ∉ acc.2.1) :
    keysOf (pass3Step acc key).1 = keysOf acc.1 ∧
    (∀ n, t3Count n (pass3Step acc key) = t3Count n acc) ∧
    (∀ x, x ∈ (pass3Step acc key).2.1 → x ∈ acc.2.1 ∨ x = key) := by
  obtain ⟨pats, rem, lost⟩ := acc
  simp only [pass3Step]
  cases hget : alGet pats key with
  | none => exact ⟨rfl, fun n => rfl, fun x hx => Or.inl hx⟩
  | some pgs =>
    dsimp only
    by_cases hlen : (!(pgs.length == 1)) = true
    · rw [if_pos hlen]
      exact ⟨rfl, fun n => rfl, fun x hx => Or.inl hx⟩
    · rw [if_neg hlen]
      cases hbest : pass3Best pats key (pyLower (extract_name_string key)) with
      | none => exact ⟨rfl, fun n => rfl, fun x hx => Or.inl hx⟩
      | some best =>
        dsimp only
        obtain ⟨hbmem, hbne⟩ := pass3Best_sound pats key _ best hbest
        refine ⟨by simp [keysOf_alUpdate], fun n => ?_, fun x hx => ?_⟩
        · simp only [t3Count]
          by_cases hbrem : rem.contains best.1 = true
          · have hbrem' : best.1 ∈ rem := by simpa using hbrem
            rw [if_pos hbrem]
            have e1 : restCount n (alUpdate (fun l => l ++ pgs) pats best.1) (rem ++ [key]) =
                restCount n pats (rem ++ [key]) := by
              apply restCount_alUpdate_inRem
              simp [List.mem_append, hbrem']
            have e2 : restCount n pats rem = restCount n pats (rem ++ [key]) + pgs.count n :=
              restCount_rem_extend n pats rem key pgs hget h1 h2
            simp only [e1]
            simp [List.count_append]
            omega
          · have hbrem' : best.1 ∉ rem := by simpa using hbrem
            rw [if_neg hbrem]
            have e1 : restCount n (alUpdate (fun l => l ++ pgs) pats best.1) (rem ++ [key]) =
                restCount n pats (rem ++ [key]) + pgs.count n := by
              apply restCount_alUpdate_append n pgs pats best.1 (rem ++ [key])
                (alGet_isSome_of_mem _ _ hbmem)
              simp [List.mem_append, hbrem', hbne]
            have e2 : restCount n pats rem = restCount n pats (rem ++ [key]) + pgs.count n :=
              restCount_rem_extend n pats rem key pgs hget h1 h2
            simp only [e1]
            omega
        · simp only [List.mem_append, List.mem_singleton] at hx
          exact hx

lemma pass3_fold_props :
    ∀ (ks : List String) (acc : List (String × List Nat) × List String × List Nat),
      keysNodup acc.1 → ks.Nodup → (∀ k ∈ ks, k ∉ acc.2.1) →
      keysOf (ks.foldl pass3Step acc).1 = keysOf acc.1 ∧
      (∀ n, t3Count n (ks.foldl pass3Step acc) = t3Count n acc) ∧
      (∀ x, x ∈ (ks.foldl pass3Step acc).2.1 → x ∈ acc.2.1 ∨ x ∈ ks) := by
  intro ks
  induction ks with
  | nil => intro acc h1 h2 h3; exact ⟨rfl, fun n => rfl, fun x hx => Or.inl hx⟩
  | cons k tl ih =>
    intro acc h1 h2 h3
    rw [List.nodup_cons] at h2
    obtain ⟨hknot, htl⟩ := h2
    obtain ⟨sk, st, sr⟩ := pass3Step_props acc k h1 (h3 k (List.mem_cons_self k tl))
    have h1' : keysNodup (pass3Step acc k).1 := by
      simpa [keysNodup, sk] using h1
    have h3' : ∀ x ∈ tl, x ∉ (pass3Step acc k).2.1 := by
      intro x hx hmem
      rcases sr x hmem with hin | heq
      · exact h3 x (List.mem_cons_of_mem k hx) hin
      · exact hknot (heq ▸ hx)
    obtain ⟨fk, ft, fr⟩ := ih (pass3Step acc k) h1' htl h3'
    refine ⟨fk.trans sk, fun n => (ft n).trans (st n), fun x hx => ?_⟩
    rcases fr x hx with hin | hmem
    · rcases sr x hin with hin2 | heq
      · exact Or.inl hin2
      · exact Or.inr (heq ▸ List.mem_cons_self k tl)
    · exact Or.inr (List.mem_cons_of_mem k hmem)

lemma alErase_eq_filter (l : List (String × α)) (k : String) (h : keysNodup l) :
    alErase l k = l.filter (fun kv => !(kv.1 == k)) := by
  induction l with
  | nil => simp [alErase]
  | cons hd tl ih =>
    rcases hd with ⟨k', v⟩
    simp only [keysNodup, keysOf, List.map_cons, List.nodup_cons] at h
    obtain ⟨hknot, htl⟩ := h
    by_cases hk : (k' == k) = true
    · have hkb : k' = k := by simpa using hk
      subst hkb
      have hfilter : tl.filter (fun kv => !(kv.1 == k')) = tl := by
        apply List.filter_eq_self.mpr
        intro kv hkv
        simp only [Bool.not_eq_true']
        by_cases he : kv.1 = k'
        · exact absurd (he ▸ List.mem_map_of_mem Prod.fst hkv) hknot
        · simpa using he
      simp [alErase, List.filter_cons, hfilter]
    · simp only [alErase, if_neg (by simpa using hk), List.filter_cons, hk, Bool.not_false]
      rw [ih (by simpa [keysNodup, keysOf] using htl)]
      simp

lemma keysNodup_filter (l : List (String × α)) (p : String × α → Bool)
    (h : keysNodup l) : keysNodup (l.filter p) := by
  apply List.Nodup.sublist _ h
  exact List.Sublist.map Prod.fst (List.filter_sublist l)

lemma erase_fold_filter :
    ∀ (rs : List String) (l : List (String × α)), keysNodup l →
      rs.foldl alErase l = l.filter (fun kv => !(rs.contains kv.1)) := by
  intro rs
  induction rs with
  | nil =>
    intro l h
    symm
    apply List.filter_eq_self.mpr
    intro kv _
    rfl
  | cons r rs' ih =>
    intro l h
    rw [List.foldl_cons, alErase_eq_filter l r h,
      ih _ (keysNodup_filter _ _ h), List.filter_filter]
    congr 1
    funext kv
    by_cases h1 : kv.1 = r <;> by_cases h2 : kv.1 ∈ rs' <;> simp [h1, h2]

lemma pass3_count (pats : List (String × List Nat)) (h : keysNodup pats) (n : Nat) :
    pagesCount n (pass3 pats).1 + (pass3 pats).2.count n = pagesCount n pats := by
  unfold pass3
  rw [show pats.map Prod.fst = keysOf pats from rfl]
  obtain ⟨fk, ft, fr⟩ := pass3_fold_props (keysOf pats) (pats, [], []) h h
    (fun k _ => by simp)
  have hnod : keysNodup ((keysOf pats).foldl pass3Step (pats, [], [])).1 := by
    rw [keysNodup, fk]; exact h
  have ht := ft n
  simp only [t3Count] at ht
  rw [restCount_nil_rem] at ht
  simp only [List.count_nil] at ht
  dsimp only
  rw [erase_fold_filter _ _ hnod]
  simpa [restCount] using ht

lemma keysNodup_pass3 (pats : List (String × List Nat)) (h : keysNodup pats) :
    keysNodup (pass3 pats).1 := by
  unfold pass3
  rw [show pats.map Prod.fst = keysOf pats from rfl]
  obtain ⟨fk, _, _⟩ := pass3_fold_props (keysOf pats) (pats, [], []) h h
    (fun k _ => by simp)
  have hnod : keysNodup ((keysOf pats).foldl pass3Step (pats, [], [])).1 := by
    rw [keysNodup, fk]; exact h
  dsimp only
  rw [erase_fold_filter _ _ hnod]
  exact keysNodup_filter _ _ hnod

/-! ### Card-pass accounting -/

def t4Count (n : Nat) (acc : List (String × List Nat) × List String) : Nat :=
  restCount n acc.1 acc.2

lemma alGet_of_mem_nodup (l : List (String × α)) (k : String) (v : α)
    (hnodup : keysNodup l) (hmem : (k, v) ∈ l) : alGet l k = some v := by
  induction l with
  | nil => simp at hmem
  | cons hd tl ih =>
    rcases hd with ⟨k', v'⟩
    simp only [keysNodup, keysOf, List.map_cons, List.nodup_cons] at hnodup
    obtain ⟨hknot, htl⟩ := hnodup
    rcases List.mem_cons.mp hmem with he | htlmem
    · injection he with he1 he2
      subst he1; subst he2
      simp [alGet]
    · by_cases hk : (k' == k) = true
      · have : k' = k := by simpa using hk
        subst this
        exact absurd (List.mem_map_of_mem Prod.fst htlmem) hknot
      · simp only [alGet, hk, if_neg, Bool.false_eq_true, not_false_eq_true]
        exact ih (by simpa [keysNodup, keysOf] using htl) htlmem

lemma alGet_alUpdate_ne (f : α → α) (l : List (String × α)) (b k : String)
    (h : k ≠ b) : alGet (alUpdate f l b) k = alGet l k := by
  induction l with
  | nil => simp [alUpdate, alGet]
  | cons hd tl ih =>
    rcases hd with ⟨k', v⟩
    by_cases hk : (k' == b) = true
    · have hkb : k' = b := by simpa using hk
      have h2 : (k' == k) = false := by
        rw [hkb]
        simpa using Ne.symm h
      simp [alUpdate, alGet, hk, h2]
    · simp only [alUpdate, hk, if_neg, Bool.false_eq_true, not_false_eq_true]
      by_cases hk2 : (k' == k) = true <;> simp [alGet, hk2, ih]

lemma standaloneCards_mem (pages : List PageData) (pats : List (String × List Nat))
    (c : String × Nat × String) (h : c ∈ standaloneCards pages pats) :
    (c.1, [c.2.1]) ∈ pats ∧ get_document_type pages c.2.1 = some c.2.2 ∧
    isCardDocType (get_document_type pages c.2.1) = true := by
  unfold standaloneCards at h
  rw [List.mem_filterMap] at h
  obtain ⟨kv, hkv, hf⟩ := h
  rcases kv with ⟨k, pgs⟩
  rcases pgs with _ | ⟨p, rest⟩
  · simp at hf
  rcases rest with _ | ⟨p2, rest2⟩
  · simp only at hf
    cases hdt : get_document_type pages p with
    | none => rw [hdt] at hf; simp at hf
    | some dt =>
      rw [hdt] at hf
      simp only at hf
      by_cases hcard : (dt == "patient_insurance_card" || dt == "patient_id_card") = true
      · rw [if_pos (by simpa using hcard)] at hf
        injection hf with hf
        subst hf
        refine ⟨by simpa using hkv, hdt, ?_⟩
        simp only [hdt, isCardDocType]
        simpa using hcard
      · rw [if_neg (by simpa using hcard)] at hf
        simp at hf
  · simp only at hf
    simp at hf

lemma cardScanAux_cases (pages : List PageData) (p : Nat) (cardLast selfKey : String) :
    ∀ (pats : List (String × List Nat)) (best : Option String) (pri : Nat) (b : String),
      cardScanAux pages p cardLast selfKey pats best pri = some b →
      best = some b ∨
      ∃ pgs, (b, pgs) ∈ pats ∧ has_insurance_or_id_card pages pgs = false := by
  intro pats
  induction pats with
  | nil => intro best pri b h; exact Or.inl h
  | cons hd tl ih =>
    intro best pri b h
    rcases hd with ⟨k, pgs⟩
    unfold cardScanAux at h
    by_cases h1 : (k == selfKey) = true
    · rw [if_pos h1] at h
      rcases ih _ _ _ h with hl | ⟨pgs2, hmem, hins⟩
      · exact Or.inl hl
      · exact Or.inr ⟨pgs2, List.mem_cons_of_mem _ hmem, hins⟩
    · rw [if_neg h1] at h
      by_cases h2 : has_insurance_or_id_card pages pgs = true
      · rw [if_pos h2] at h
        rcases ih _ _ _ h with hl | ⟨pgs2, hmem, hins⟩
        · exact Or.inl hl
        · exact Or.inr ⟨pgs2, List.mem_cons_of_mem _ hmem, hins⟩
      · rw [if_neg h2] at h
        dsimp only at h
        by_cases h3 : (pyMinNat pgs < p && p < pyMaxNat pgs) = true
        · rw [if_pos h3] at h
          injection h with h
          subst h
          exact Or.inr ⟨pgs, List.mem_cons_self _ _, by simpa using h2⟩
        · rw [if_neg h3] at h
          rcases ih _ _ _ h with hl | ⟨pgs2, hmem, hins⟩
          · have hbb : best = some b ∨ b = k := by
              repeat' split at hl
              all_goals first
                | (injection hl with hl2; exact Or.inr hl2.symm)
                | (exact Or.inl hl)
            rcases hbb with hbest | hbk
            · exact Or.inl hbest
            · subst hbk
              exact Or.inr ⟨pgs, List.mem_cons_self _ _, by simpa using h2⟩
          · exact Or.inr ⟨pgs2, List.mem_cons_of_mem _ hmem, hins⟩

/-- The pass-4 loop invariant: keys unique, every standalone-card group still
holds exactly its own card page, and only card keys are queued for removal. -/
def cardInv (allCards : List (String × Nat × String))
    (acc : List (String × List Nat) × List String) : Prop :=
  keysNodup acc.1 ∧
  (∀ c ∈ allCards, alGet acc.1 c.1 = some [c.2.1]) ∧
  (∀ x ∈ acc.2, ∃ c ∈ allCards, x = c.1)

lemma pass4Step_props (pages : List PageData) (allCards : List (String × Nat × String))
    (acc : List (String × List Nat) × List String) (card : String × Nat × String)
    (hcards : ∀ c ∈ allCards, isCardDocType (get_document_type pages c.2.1) = true)
    (hinv : cardInv allCards acc) (hcard : card ∈ allCards) (hnotrem : card.1 ∉ acc.2) :
    cardInv allCards (pass4Step pages acc card) ∧
    (∀ n, t4Count n (pass4Step pages acc card) = t4Count n acc) ∧
    (∀ x, x ∈ (pass4Step pages acc card).2 → x ∈ acc.2 ∨ x = card.1) := by
  obtain ⟨hnodup, hstable, hremcard⟩ := hinv
  obtain ⟨k, p, dt⟩ := card
  simp only [pass4Step]
  cases hscan : cardScan pages acc.1 k p (extract_last_name k) with
  | none => exact ⟨⟨hnodup, hstable, hremcard⟩, fun n => rfl, fun x hx => Or.inl hx⟩
  | some b =>
    dsimp only
    rcases cardScanAux_cases pages p (extract_last_name k) k acc.1 none 0 b hscan with
      habs | ⟨pgs, hmem, hins⟩
    · cases habs
    · have hbmem : b ∈ keysOf acc.1 := List.mem_map_of_mem Prod.fst hmem
      have hbcard : ∀ c ∈ allCards, b ≠ c.1 := by
        intro c hc he
        have h1 : alGet acc.1 c.1 = some [c.2.1] := hstable c hc
        have h2 : alGet acc.1 b = some pgs := alGet_of_mem_nodup _ _ _ hnodup hmem
        rw [he, h1] at h2
        injection h2 with h2
        rw [← h2] at hins
        have h3 := hcards c hc
        simp [has_insurance_or_id_card, h3] at hins
      have hbk : b ≠ k := hbcard (k, p, dt) hcard
      have hbrem : b ∉ acc.2 := by
        intro hx
        obtain ⟨c, hc, he⟩ := hremcard b hx
        exact hbcard c hc he
      refine ⟨⟨?_, ?_, ?_⟩, ?_, ?_⟩
      · exact keysNodup_alUpdate _ _ _ hnodup
      · intro c hc
        rw [alGet_alUpdate_ne _ _ _ _ (Ne.symm (hbcard c hc))]
        exact hstable c hc
      · intro x hx
        rcases List.mem_append.mp hx with hx1 | hx2
        · exact hremcard x hx1
        · rw [List.mem_singleton] at hx2
          exact ⟨(k, p, dt), hcard, hx2⟩
      · intro n
        simp only [t4Count]
        have e1 : restCount n (alUpdate (fun l => l ++ [p]) acc.1 b) (acc.2 ++ [k]) =
            restCount n acc.1 (acc.2 ++ [k]) + [p].count n := by
          apply restCount_alUpdate_append n [p] acc.1 b (acc.2 ++ [k])
            (alGet_isSome_of_mem _ _ hbmem)
          simp [List.mem_append, hbrem, hbk]
        have e2 : restCount n acc.1 acc.2 =
            restCount n acc.1 (acc.2 ++ [k]) + ([p] : List Nat).count n :=
          restCount_rem_extend n acc.1 acc.2 k [p] (hstable (k, p, dt) hcard) hnodup hnotrem
        rw [e1]
        omega
      · intro x hx
        rcases List.mem_append.mp hx with hx1 | hx2
        · exact Or.inl hx1
        · rw [List.mem_singleton] at hx2
          exact Or.inr hx2

lemma pass4_fold_props (pages : List PageData) (allCards : List (String × Nat × String))
    (hcards : ∀ c ∈ allCards, isCardDocType (get_document_type pages c.2.1) = true) :
    ∀ (cards : List (String × Nat × String)) (acc : List (String × List Nat) × List String),
      cardInv allCards acc → (∀ c ∈ cards, c ∈ allCards) →
      (cards.map Prod.fst).Nodup → (∀ c ∈ cards, c.1 ∉ acc.2) →
      cardInv allCards (cards.foldl (pass4Step pages) acc) ∧
      (∀ n, t4Count n (cards.foldl (pass4Step pages) acc) = t4Count n acc) := by
  intro cards
  induction cards with
  | nil => intro acc h1 _ _ _; exact ⟨h1, fun n => rfl⟩
  | cons c tl ih =>
    intro acc h1 h2 h3 h4
    rw [List.map_cons, List.nodup_cons] at h3
    obtain ⟨hcnot, htl⟩ := h3
    obtain ⟨sinv, st, sr⟩ := pass4Step_props pages allCards acc c hcards h1
      (h2 c (List.mem_cons_self c tl)) (h4 c (List.mem_cons_self c tl))
    have h4' : ∀ c' ∈ tl, c'.1 ∉ (pass4Step pages acc c).2 := by
      intro c' hc' hmem
      rcases sr c'.1 hmem with hin | heq
      · exact h4 c' (List.mem_cons_of_mem c hc') hin
      · exact hcnot (heq ▸ List.mem_map_of_mem Prod.fst hc')
    obtain ⟨finv, ft⟩ := ih (pass4Step pages acc c) sinv
      (fun c' hc' => h2 c' (List.mem_cons_of_mem c hc')) htl h4'
    exact ⟨finv, fun n => (ft n).trans (st n)⟩

lemma standaloneCards_keys_sublist (pages : List PageData) :
    ∀ pats : List (String × List Nat),
      ((standaloneCards pages pats).map Prod.fst).Sublist (keysOf pats) := by
  intro pats
  induction pats with
  | nil => simp [standaloneCards, keysOf]
  | cons kv tl ih =>
    rcases kv with ⟨k, pgs⟩
    simp only [standaloneCards, List.filterMap_cons, keysOf, List.map_cons] at ih ⊢
    rcases pgs with _ | ⟨p, rest⟩
    · exact ih.cons k
    rcases rest with _ | ⟨p2, r2⟩
    · cases hdt : get_document_type pages p with
      | none => simp only [hdt]; exact ih.cons k
      | some dt =>
        simp only [hdt]
        by_cases hc : (dt == "patient_insurance_card" || dt == "patient_id_card") = true
        · rw [if_pos (by simpa using hc)]
          simpa using ih.cons₂ k
        · rw [if_neg (by simpa using hc)]
          exact ih.cons k
    · exact ih.cons k

lemma pass4_count (pages : List PageData) (pats : List (String × List Nat))
    (h : keysNodup pats) (n : Nat) :
    pagesCount n (pass4 pages pats) = pagesCount n pats := by
  unfold pass4
  have hcards : ∀ c ∈ standaloneCards pages pats,
      isCardDocType (get_document_type pages c.2.1) = true :=
    fun c hc => (standaloneCards_mem pages pats c hc).2.2
  have hinv0 : cardInv (standaloneCards pages pats) (pats, []) :=
    ⟨h, fun c hc => alGet_of_mem_nodup _ _ _ h (standaloneCards_mem pages pats c hc).1,
     by simp⟩
  obtain ⟨finv, ft⟩ := pass4_fold_props pages (standaloneCards pages pats) hcards
    (standaloneCards pages pats) (pats, []) hinv0 (fun c hc => hc)
    (List.Nodup.sublist (standaloneCards_keys_sublist pages pats) h)
    (fun c _ => by simp)
  have ht := ft n
  simp only [t4Count] at ht
  rw [restCount_nil_rem] at ht
  dsimp only
  rw [erase_fold_filter _ _ finv.1]
  simpa [restCount] using ht

lemma keysNodup_pass4 (pages : List PageData) (pats : List (String × List Nat))
    (h : keysNodup pats) : keysNodup (pass4 pages pats) := by
  unfold pass4
  have hcards : ∀ c ∈ standaloneCards pages pats,
      isCardDocType (get_document_type pages c.2.1) = true :=
    fun c hc => (standaloneCards_mem pages pats c hc).2.2
  have hinv0 : cardInv (standaloneCards pages pats) (pats, []) :=
    ⟨h, fun c hc => alGet_of_mem_nodup _ _ _ h (standaloneCards_mem pages pats c hc).1,
     by simp⟩
  obtain ⟨finv, _⟩ := pass4_fold_props pages (standaloneCards pages pats) hcards
    (standaloneCards pages pats) (pats, []) hinv0 (fun c hc => hc)
    (List.Nodup.sublist (standaloneCards_keys_sublist pages pats) h)
    (fun c _ => by simp)
  dsimp only
  rw [erase_fold_filter _ _ finv.1]
  exact keysNodup_filter _ _ finv.1

lemma sortNat_count (l : List Nat) (n : Nat) : (sortNat l).count n = l.count n :=
  (List.perm_insertionSort _ l).count_eq n

lemma pagesCount_map_sort (pats : List (String × List Nat)) (n : Nat) :
    pagesCount n (pats.map (fun kv => (kv.1, sortNat kv.2))) = pagesCount n pats := by
  induction pats with
  | nil => rfl
  | cons kv tl ih =>
    rcases kv with ⟨k, v⟩
    simp only [List.map_cons, pagesCount_cons, ih, sortNat_count]

/-- The master page-accounting equation: for every page number, its
occurrences in the output (surgery schedule plus all patient groups), plus
the ghost drop lists of passes 1 and 2, plus the pages silently lost by the
fuzzy pass, exactly match its occurrences in the input. -/
theorem pipeline_master_count (fb : Fallback) (pages : List PageData) (n : Nat) :
    (group_classification_results fb pages).surgery_schedule.count n +
    pagesCount n (group_classification_results fb pages).patients +
    (pass2 (pass1 fb pages)).dropped1.count n +
    (pass2 (pass1 fb pages)).dropped2.count n +
    (lostPages fb pages).count n =
    (pages.map PageData.page_num).count n := by
  have hnodup := keysNodup_pass12 fb pages
  have h2 := t2_pass12 fb pages n
  have h3 := pass3_count (pass2 (pass1 fb pages)).patients hnodup n
  have h4 := pass4_count pages (pass3 (pass2 (pass1 fb pages)).patients).1
    (keysNodup_pass3 _ hnodup) n
  simp only [group_classification_results, lostPages]
  rw [sortNat_count, pagesCount_map_sort]
  simp only [t2Count] at h2
  omega

/-! ### The no-identity drop branch of the deferred matcher -/

/-- A deferred tuple carries an identity signal: nonempty first name, last
name, MRN, or a truthy normalized DOB. -/
def hasSignal (t : Nat × String × String × String × Option String) : Prop :=
  ¬ t.2.1 = "" ∨ ¬ t.2.2.1 = "" ∨ ¬ t.2.2.2.1 = "" ∨ optStrTruthy t.2.2.2.2 = true

lemma patientKeyParts_signal (f l : String) (d : Option String)
    (h : (!(patientKeyParts f l d).isEmpty) = true) :
    ¬ f = "" ∨ ¬ l = "" ∨ optStrTruthy d = true := by
  by_cases hf : f = ""
  · by_cases hl : l = ""
    · cases d with
      | none => simp [patientKeyParts, hf, hl] at h
      | some s =>
        by_cases hs : s = ""
        · simp [patientKeyParts, hf, hl, hs] at h
        · exact Or.inr (Or.inr (by simp [optStrTruthy, hs]))
    · exact Or.inr (Or.inl hl)
  · exact Or.inl hf

lemma ne_of_bnot_beq {s : String} (h : (!(s == "")) = true) : ¬ s = "" := by
  simpa using h

lemma pass1Step_deferred_signal (fb : Fallback) (st : P12State) (pd : PageData)
    (h : ∀ t ∈ st.deferred, hasSignal t) :
    ∀ t ∈ (pass1Step fb st pd).deferred, hasSignal t := by
  intro t ht
  simp only [pass1Step] at ht
  split_ifs at ht with h1 h2 h3 h4 h5 h6 h7
  all_goals dsimp only at ht
  all_goals
    first
      | exact h t ht
      | (rcases List.mem_append.mp ht with hold | hnew
         · exact h t hold
         · rw [List.mem_singleton] at hnew
           subst hnew
           by_cases hp : (!(patientKeyParts (normField (find_field pd.payload firstNameFields))
               (normField (find_field pd.payload lastNameFields))
               (dobNormalized fb (find_field pd.payload dobFields))).isEmpty) = true
           · rcases patientKeyParts_signal _ _ _ hp with hs | hs | hs
             · exact Or.inl hs
             · exact Or.inr (Or.inl hs)
             · exact Or.inr (Or.inr (Or.inr hs))
           · first
               | exact absurd h4 hp
               | (rename_i hor0
                  have hor : ¬ normMrnField (find_field pd.payload mrnFields) = "" ∨
                      optStrTruthy (dobNormalized fb (find_field pd.payload dobFields)) =
                        true := by simpa using hor0
                  rcases hor with hs | hs
                  · exact Or.inr (Or.inr (Or.inl hs))
                  · exact Or.inr (Or.inr (Or.inr hs))))

lemma pass1_deferred_signal (fb : Fallback) :
    ∀ (pages : List PageData) (st : P12State),
      (∀ t ∈ st.deferred, hasSignal t) →
      ∀ t ∈ (pages.foldl (pass1Step fb) st).deferred, hasSignal t := by
  intro pages
  induction pages with
  | nil => intro st h; simpa using h
  | cons pd tl ih =>
    intro st h
    exact ih _ (pass1Step_deferred_signal fb st pd h)

lemma pass2NewGroup_dropped2 (st : P12State) (n1 : Nat) (first last mrn : String)
    (dob : Option String)
    (hsig : ¬ first = "" ∨ ¬ last = "" ∨ ¬ mrn = "" ∨ optStrTruthy dob = true) :
    (pass2NewGroup st n1 first last mrn dob).dropped2 = st.dropped2 := by
  simp only [pass2NewGroup]
  split_ifs
  all_goals first
    | rfl
    | (exfalso
       rcases hsig with hs | hs | hs | hs <;> simp_all)

lemma pass2Step_dropped2 (st : P12State)
    (t : Nat × String × String × String × Option String) (hsig : hasSignal t) :
    (pass2Step st t).dropped2 = st.dropped2 := by
  obtain ⟨n1, first, last, mrn, dob⟩ := t
  simp only [pass2Step]
  cases hname : nameScan st.patients first last with
  | some key => rfl
  | none =>
    cases hmrn : (if mrn == "" then none else mrnScan st.meta mrn st.patients) with
    | some key => rfl
    | none =>
      cases hdob : (if optStrTruthy dob = true then dobScan st.meta dob st.patients
          else none) with
      | some key => rfl
      | none => exact pass2NewGroup_dropped2 st n1 first last mrn dob hsig

lemma pass2_fold_dropped2 :
    ∀ (ds : List (Nat × String × String × String × Option String)) (st : P12State),
      (∀ t ∈ ds, hasSignal t) →
      (ds.foldl pass2Step st).dropped2 = st.dropped2 := by
  intro ds
  induction ds with
  | nil => intro st _; rfl
  | cons t tl ih =>
    intro st h
    rw [List.foldl_cons, ih _ (fun t' ht' => h t' (List.mem_cons_of_mem t ht')),
      pass2Step_dropped2 st t (h t (List.mem_cons_self t tl))]

lemma pass1Step_dropped2 (fb : Fallback) (st : P12State) (pd : PageData) :
    (pass1Step fb st pd).dropped2 = st.dropped2 := by
  simp only [pass1Step]
  split_ifs <;> rfl

lemma pass1_dropped2 (fb : Fallback) :
    ∀ (pages : List PageData) (st : P12State),
      (pages.foldl (pass1Step fb) st).dropped2 = st.dropped2 := by
  intro pages
  induction pages with
  | nil => intro st; rfl
  | cons pd tl ih => intro st; rw [List.foldl_cons, ih, pass1Step_dropped2]

lemma count_flatten_pagesCount (pats : List (String × List Nat)) (n : Nat) :
    ((pats.map Prod.snd).flatten).count n = pagesCount n pats := by
  induction pats with
  | nil => rfl
  | cons kv tl ih =>
    rcases kv with ⟨k, v⟩
    simp only [List.map_cons, List.flatten_cons, List.count_append, ih, pagesCount_cons]

/-! ### C10 -/

/-- C10: every tuple the first pass defers carries at least one identity
signal (nonempty first name, last name, MRN, or truthy normalized DOB), so
the deferred matcher's no-identity drop branch is unreachable: its ghost
`dropped2` list is empty for every input. -/
theorem c10_deferred_always_identified :
    ∀ (fallback : Fallback) (pages : List PageData),
      (∀ t ∈ (pass1 fallback pages).deferred,
        ¬ t.2.1 = "" ∨ ¬ t.2.2.1 = "" ∨ ¬ t.2.2.2.1 = "" ∨ optStrTruthy t.2.2.2.2 = true) ∧
      (pass2 (pass1 fallback pages)).dropped2 = [] := by
  intro fb pages
  have hsig : ∀ t ∈ (pass1 fb pages).deferred, hasSignal t := by
    rw [pass1]
    exact pass1_deferred_signal fb pages initState (by simp [initState])
  refine ⟨hsig, ?_⟩
  rw [pass2, pass2_fold_dropped2 _ _ hsig, pass1, pass1_dropped2]
  rfl

theorem c10_deferred_always_identified_witness :
    ((1, "abc", "", "", (none : Option String)) ∈ (pass1 noFb c1Pages).deferred) ∧
    (¬ "abc" = "" ∨ ¬ "" = "" ∨ ¬ "" = "" ∨ optStrTruthy (none : Option String) = true) ∧
    (pass2 (pass1 noFb c1Pages)).dropped2 = [] :=
  ⟨by decide,
   (c10_deferred_always_identified noFb c1Pages).1 (1, "abc", "", "", none) (by decide),
   (c10_deferred_always_identified noFb c1Pages).2⟩

/-! ### C1 -/

/-- C1 counterexample: on `c1Pages` the fuzzy pass first merges the singleton
`abc` into `abcde`, then merges the singleton `aeb` into `abc`, which is
already queued for deletion — page 3 was placed into a group by the second
pass yet appears nowhere in the output (the ghost `lostPages` records it).
Page 4 carries an extracted DOB value (an identity signal) yet is silently
dropped by the first pass.  Both refute the claim as stated. -/
theorem c1_counterexample :
    (pass2 (pass1 noFb c1Pages)).patients = [("abc", [1]), ("abcde", [2]), ("aeb", [3])] ∧
    group_classification_results noFb c1Pages =
      { surgery_schedule := [], patients := [("abcde", [1, 2])] } ∧
    lostPages noFb c1Pages = [3] ∧
    find_field (Value.vmap [("dob", Value.str "garbage")]) dobFields =
      some (.str "garbage") ∧
    (pass2 (pass1 noFb c1Pages)).dropped1 = [4] :=
  ⟨rfl, rfl, rfl, rfl, rfl⟩

/-- C1 amended: for every page number, its occurrences in the output
(surgery schedule plus all groups) plus the first pass's silent drops, the
deferred matcher's (unreachable) drops, and the pages lost by the fuzzy pass
exactly account for its occurrences in the input; with unique input page
numbers every input page is in exactly one of those places. -/
theorem c1_partition_accounting :
    ∀ (fallback : Fallback) (pages : List PageData),
      (∀ n, (group_classification_results fallback pages).surgery_schedule.count n +
        pagesCount n (group_classification_results fallback pages).patients +
        (pass2 (pass1 fallback pages)).dropped1.count n +
        (pass2 (pass1 fallback pages)).dropped2.count n +
        (lostPages fallback pages).count n =
        (pages.map PageData.page_num).count n) ∧
      ((pages.map PageData.page_num).Nodup →
        ∀ n ∈ pages.map PageData.page_num,
          (group_classification_results fallback pages).surgery_schedule.count n +
          pagesCount n (group_classification_results fallback pages).patients +
          (pass2 (pass1 fallback pages)).dropped1.count n +
          (pass2 (pass1 fallback pages)).dropped2.count n +
          (lostPages fallback pages).count n = 1) := by
  intro fb pages
  refine ⟨fun n => pipeline_master_count fb pages n, fun hnd n hn => ?_⟩
  rw [pipeline_master_count fb pages n]
  have h1 : (pages.map PageData.page_num).count n ≤ 1 :=
    List.nodup_iff_count_le_one.mp hnd n
  have h2 : 0 < (pages.map PageData.page_num).count n :=
    List.count_pos_iff.mpr hn
  omega

theorem c1_partition_accounting_witness :
    (c1Pages.map PageData.page_num).Nodup ∧ 1 ∈ c1Pages.map PageData.page_num ∧
    (group_classification_results noFb c1Pages).surgery_schedule.count 1 +
      pagesCount 1 (group_classification_results noFb c1Pages).patients +
      (pass2 (pass1 noFb c1Pages)).dropped1.count 1 +
      (pass2 (pass1 noFb c1Pages)).dropped2.count 1 +
      (lostPages noFb c1Pages).count 1 = 1 :=
  ⟨by decide, by decide,
   (c1_partition_accounting noFb c1Pages).2 (by decide) 1 (by decide)⟩

/-! ### C9 -/

/-- C9: with unique input page numbers, no page number is duplicated across
the surgery schedule and all patient groups, the surgery schedule is sorted
ascending, and every group's pages list is sorted ascending. -/
theorem c9_no_double_count_sorted :
    ∀ (fallback : Fallback) (pages : List PageData),
      (pages.map PageData.page_num).Nodup →
      ((group_classification_results fallback pages).surgery_schedule ++
        ((group_classification_results fallback pages).patients.map Prod.snd).flatten).Nodup ∧
      (group_classification_results fallback pages).surgery_schedule.Sorted (· ≤ ·) ∧
      ∀ kv ∈ (group_classification_results fallback pages).patients,
        kv.2.Sorted (· ≤ ·) := by
  intro fb pages hnd
  refine ⟨?_, ?_, ?_⟩
  · rw [List.nodup_iff_count_le_one]
    intro a
    rw [List.count_append, count_flatten_pagesCount]
    have hm := pipeline_master_count fb pages a
    have hin : (pages.map PageData.page_num).count a ≤ 1 :=
      List.nodup_iff_count_le_one.mp hnd a
    omega
  · simp only [group_classification_results, sortNat]
    exact List.sorted_insertionSort _ _
  · intro kv hkv
    simp only [group_classification_results, List.mem_map] at hkv
    obtain ⟨kv0, _, he⟩ := hkv
    rw [← he]
    simpa [sortNat] using List.sorted_insertionSort (· ≤ ·) kv0.2

theorem c9_no_double_count_sorted_witness :
    (c1Pages.map PageData.page_num).Nodup ∧
    (((group_classification_results noFb c1Pages).surgery_schedule ++
      ((group_classification_results noFb c1Pages).patients.map Prod.snd).flatten).Nodup ∧
     (group_classification_results noFb c1Pages).surgery_schedule.Sorted (· ≤ ·) ∧
     ∀ kv ∈ (group_classification_results noFb c1Pages).patients,
       kv.2.Sorted (· ≤ ·)) :=
  ⟨by decide, c9_no_double_count_sorted noFb c1Pages (by decide)⟩
